import Mathlib

/-
Verification development for the DrupalREST client library
(src: drupalRest.js / the untitled module variant with the dependency-resolving
entitySave, the paginated loadRestExport and the message-aware processJSONResult).

The JavaScript source is shallowly embedded: JSON values become an inductive
type, the HTTP transport and JSON.parse become explicit oracles passed as
arguments, the callback-driven control flow becomes explicit state machines,
and the event-loop nondeterminism of concurrently outstanding requests becomes
an explicit schedule argument.
-/

namespace DrupalRest

/-- JSON values as produced by a successful JSON.parse (JSON has no undefined,
so every field value is one of these; `undefined` is modelled at use sites by
`Option JSValue` being `none`). -/
inductive JSValue where
  | null : JSValue
  | bool (b : Bool) : JSValue
  | num (n : Int) : JSValue
  | str (s : String) : JSValue
  | arr (elems : List JSValue) : JSValue
  | obj (fields : List (String × JSValue)) : JSValue

/-- JavaScript truthiness of a JSON-parsed value: null, false, 0 and the empty
string are falsy; every object and array is truthy. -/
def jsTruthy : JSValue → Bool
  | .null => false
  | .bool b => b
  | .num n => n != 0
  | .str s => s != ""
  | .arr _ => true
  | .obj _ => true

/-- Whether the JS `in` operator is applicable: it requires an object (arrays
included); applying it to a primitive throws a TypeError. -/
def isObjectLike : JSValue → Bool
  | .obj _ => true
  | .arr _ => true
  | _ => false

mutual
/-- JavaScript String() conversion of a JSON-parsed value (used by
`new Error(x)` for its message, by string concatenation and by Array.join). -/
def jsToString (v : JSValue) : String :=
  match v with
  | .null => "null"
  | .bool true => "true"
  | .bool false => "false"
  | .num n => toString n
  | .str s => s
  | .obj _ => "[object Object]"
  | .arr xs => String.intercalate "," (jsJoinParts xs)

/-- Element rendering of Array.join: null (and undefined) render as the empty
string, every other element by String(). -/
def jsJoinParts : List JSValue → List String
  | [] => []
  | .null :: rest => "" :: jsJoinParts rest
  | v :: rest => jsToString v :: jsJoinParts rest
end

/-- Property lookup on a JSON value: own properties of objects only (JSON.parse
keeps the last of duplicate keys, hence the reversed search). Primitives and
arrays have no own string-named properties. -/
def jsGet (v : JSValue) (key : String) : Option JSValue :=
  match v with
  | .obj fs => (fs.reverse.find? (fun kv => kv.1 == key)).map (fun kv => kv.2)
  | _ => none

/-- Index access `v[i]` for the cases where it yields a value: arrays by
position, objects by the stringified index key, strings by character. On other
values the caller-side JS reads `undefined` (or throws for null), which the
call sites below fold into the same `none`. -/
def jsIndex (v : JSValue) (i : Nat) : Option JSValue :=
  match v with
  | .arr xs => xs[i]?
  | .obj fs => jsGet (.obj fs) (toString i)
  | .str s => (s.data[i]?).map (fun c => .str (String.mk [c]))
  | _ => none

/-- What the decoder does with one response body: either the callback fires
exactly once with (error, data), or the decoder itself throws a TypeError
before reaching the callback. -/
inductive DecodeOutcome where
  | callbackCalled (error : Option String) (data : Option JSValue) : DecodeOutcome
  | thrown : DecodeOutcome

/-- Shallow embedding of processJSONResult (src part_000 lines 535-550).
`body` is the raw response text and `parsed` the outcome of `JSON.parse(body)`
(`none` when parsing throws). The source then runs
`if (data && 'message' in data)`: when the parsed value is truthy the `in`
operator is evaluated, which on a non-object (a truthy number, string or
boolean) throws a TypeError that escapes the function; on an object carrying a
`message` property the data is discarded and the error message becomes
`String(data.message)`. Otherwise the callback receives the parsed data. -/
def processJSONResult (body : String) (parsed : Option JSValue) : DecodeOutcome :=
  match parsed with
  | none => .callbackCalled (some body) none
  | some data =>
    if jsTruthy data then
      if isObjectLike data then
        match jsGet data "message" with
        | some m => .callbackCalled (some (jsToString m)) none
        | none => .callbackCalled none (some data)
      else .thrown
    else .callbackCalled none (some data)

/-- Outcome of the body handling in entityRemove (src part_000 lines 217-224):
an empty body short-circuits to `callback(null)` with no data, any other body
is handed to processJSONResult. -/
inductive RemoveOutcome where
  | doneNoData : RemoveOutcome
  | decoded (o : DecodeOutcome) : RemoveOutcome

/-- Shallow embedding of the response handling of entityRemove. -/
def entityRemoveBody (body : String) (parsed : Option JSValue) : RemoveOutcome :=
  if body = "" then .doneNoData else .decoded (processJSONResult body parsed)

/-! ## Paginated export driver (loadRestExport, src part_000 lines 473-533) -/

/-- Options accepted by loadRestExport: each field is `none` when the caller
did not supply it. -/
structure ExportOptions where
  paginated : Option Bool
  startPage : Option Nat
  endPage : Option Nat

/-- JavaScript `x || dflt` on an optional number: an absent value and the
falsy number 0 both fall through to the default. -/
def jsOrNum (x : Option Nat) (dflt : Option Nat) : Option Nat :=
  match x with
  | some n => if n = 0 then dflt else some n
  | none => dflt

/-- Mutable loop state of loadRestExport: the next page number, the `notDone`
continuation flag, the accumulated result list, plus (for specification
purposes) the list of page numbers fetched so far, in fetch order. -/
structure ExportState where
  page : Nat
  notDone : Bool
  result : List JSValue
  fetched : List Nat

/-- Sequential per-item resolution of one page, aborting at the first error:
the embedding of the source's `async.eachOfSeries(data, ... _entityLoad ...)`. -/
def loadSeq (itemLoad : JSValue → Except String JSValue) :
    List JSValue → Except String (List JSValue)
  | [] => .ok []
  | x :: xs =>
    match itemLoad x with
    | .error e => .error e
    | .ok y =>
      match loadSeq itemLoad xs with
      | .error e => .error e
      | .ok ys => .ok (y :: ys)

/-- One fetch iteration of the doWhilst body: fetch `pages s.page`, clear
`notDone` on an empty page, advance the page counter, then resolve each item
sequentially through `itemLoad` (the embedding of `_entityLoad item options`,
which is the identity when no includeReferences are requested). A failing item
aborts with the error before the page is appended to the result, exactly like
the `done(err)` path of the source's eachOfSeries. -/
def pageFetch (pages : Nat → List JSValue) (itemLoad : JSValue → Except String JSValue)
    (s : ExportState) : Option String × ExportState :=
  let data := pages s.page
  let nd := if data.length = 0 then false else s.notDone
  let s1 : ExportState := ⟨s.page + 1, nd, s.result, s.fetched ++ [s.page]⟩
  match loadSeq itemLoad data with
  | .error e => (some e, s1)
  | .ok loaded => (none, { s1 with result := s.result ++ loaded })

/-- One execution of the doWhilst body: when an endPage is set and already
passed, clear `notDone` and return without fetching; otherwise fetch a page. -/
def exportStep (endPage : Option Nat) (pages : Nat → List JSValue)
    (itemLoad : JSValue → Except String JSValue) (s : ExportState) :
    Option String × ExportState :=
  match endPage with
  | some e => if s.page > e then (none, { s with notDone := false }) else pageFetch pages itemLoad s
  | none => pageFetch pages itemLoad s

/-- The doWhilst loop: run the body, stop on error or when `notDone` has been
cleared, otherwise iterate. `fuel` bounds the number of body executions so the
(in general unbounded) loop is a total function; `none` means the loop was
still running when the fuel ran out. -/
def exportRun (endPage : Option Nat) (pages : Nat → List JSValue)
    (itemLoad : JSValue → Except String JSValue) :
    Nat → ExportState → Option (Option String × ExportState)
  | 0, _ => none
  | fuel + 1, s =>
    match exportStep endPage pages itemLoad s with
    | (some e, s') => some (some e, s')
    | (none, s') =>
      if s'.notDone then exportRun endPage pages itemLoad fuel s'
      else some (none, s')

/-- Shallow embedding of loadRestExport: `page` starts at `startPage || 0`,
`endPage` is `options.endPage || null` (so an explicit 0 is dropped), and
`paginated === false` forces `endPage` to the start page. The returned triple
is (error passed to the final callback, result list, fetched page numbers). -/
def loadRestExport (opts : ExportOptions) (pages : Nat → List JSValue)
    (itemLoad : JSValue → Except String JSValue) (fuel : Nat) :
    Option (Option String × List JSValue × List Nat) :=
  let page := opts.startPage.getD 0
  let endPage := jsOrNum opts.endPage none
  let endPage := if opts.paginated = some false then some page else endPage
  (exportRun endPage pages itemLoad fuel ⟨page, true, [], []⟩).map
    (fun r => (r.1, r.2.result, r.2.fetched))

/-- Concatenation of `n` consecutive pages starting at `p`, each item mapped
through the pure item-resolution function. -/
def concatPages (pages : Nat → List JSValue) (loadF : JSValue → JSValue) :
    Nat → Nat → List JSValue
  | _, 0 => []
  | p, n + 1 => (pages p).map loadF ++ concatPages pages loadF (p + 1) n

/-! ## Entity persistence engine (entitySave, src part_000 lines 142-200) -/

/-- One entry of a field's value sequence, as entitySave inspects it: the
walk reads only `target_type`, `target_id` and `data` of an item (and writes
`target_id`); any further attributes are inert, so they are not modelled. -/
structure RefItem where
  target_type : Option String
  target_id : Option JSValue
  data : Option JSValue

/-- An entity payload: ordered fields (JS object property order), each an
ordered sequence of items. JS objects have unique keys. -/
abbrev Payload := List (String × List RefItem)

/-- One entry of the static entityConfiguration table; `file` declares no
createHandle. -/
structure EntityDef where
  entityHandle : String
  createHandle : Option String
  idField : String

/-- The static entity registry (src part_000 lines 3-33). -/
def entityConfiguration (t : String) : Option EntityDef :=
  if t = "node" then some ⟨"node/%", some "node", "nid"⟩
  else if t = "media" then some ⟨"media/%/edit", some "entity/media", "mid"⟩
  else if t = "taxonomy" then some ⟨"taxonomy/term/%", some "taxonomy/term", "tid"⟩
  else if t = "file" then some ⟨"entity/file/%", none, "fid"⟩
  else if t = "paragraph" then some ⟨"entity/paragraph/%", some "entity/paragraph", "pid"⟩
  else if t = "user" then some ⟨"user/%", some "entity/user", "uid"⟩
  else none

/-- A dependency request issued during the walk: either a file upload to the
given path, or a recursive entitySave of the inline data (the recursive call
is flattened into one request whose decoded result the environment supplies). -/
inductive DepReq where
  | fileUpload (entityPath : String) (file : JSValue) : DepReq
  | childSave (targetType : Option String) (targetId : Option JSValue) (content : JSValue) : DepReq

/-- An outstanding dependency request, tagged with the field position, the
field name and the item index it belongs to. -/
structure Pending where
  fieldIdx : Nat
  key : String
  itemIdx : Nat
  req : DepReq

/-- Truthiness test `if (value.data)` guarding the dependency branch. -/
def hasData (it : RefItem) : Bool :=
  match it.data with
  | some d => jsTruthy d
  | none => false

/-- Field lookup `content[key]` on the payload (JS object keys are unique, so
first match). -/
def lookupField (content : Payload) (key : String) : Option (List RefItem) :=
  (content.find? (fun kv => kv.1 == key)).map (fun kv => kv.2)

/-- The read `content.type[0].target_id` in the upload path: `none` when the
`type` field or its first item is missing (the JS expression then throws). -/
def typeTargetId (content : Payload) : Option (Option JSValue) :=
  match lookupField content "type" with
  | none => none
  | some [] => none
  | some (it :: _) => some it.target_id

/-- Rendering of one element of Array.join('/'): undefined and null become the
empty string. -/
def joinPart : Option JSValue → String
  | none => ""
  | some .null => ""
  | some v => jsToString v

/-- The upload path `[entityType, content.type[0].target_id, key].join('/')`. -/
def uploadPath (entityType : String) (tid : Option JSValue) (key : String) : String :=
  entityType ++ "/" ++ joinPart tid ++ "/" ++ key

/-- Request construction for an item whose data is truthy (src lines 153-172):
the `fileUpload` sentinel target type uploads to the path built from the
payload's current `type` field, anything else recursively saves the inline
data. `none` models the synchronous TypeError when `content.type[0]` is
missing. -/
def mkItemReq (entityType : String) (content : Payload) (fieldIdx : Nat) (key : String)
    (itemIdx : Nat) (it : RefItem) (d : JSValue) : Option Pending :=
  if it.target_type = some "fileUpload" then
    match typeTargetId content with
    | none => none
    | some tid => some ⟨fieldIdx, key, itemIdx, .fileUpload (uploadPath entityType tid key) d⟩
  else some ⟨fieldIdx, key, itemIdx, .childSave it.target_type it.target_id d⟩

/-- Result of running one field's eachOfSeries chain synchronously from some
item index: it either reaches the end of the sequence, suspends on an issued
request, or throws. -/
inductive ChainRes where
  | finished : ChainRes
  | issued (p : Pending) : ChainRes
  | crashed : ChainRes

/-- Synchronous part of a field chain: skip items with falsy data (the source
calls `done()` immediately), stop at the first item with truthy data by
issuing its dependency request. `i` is the index of the first item of `rest`
within the field. -/
def runChainAux (entityType : String) (content : Payload) (f : Nat) (key : String) :
    Nat → List RefItem → ChainRes
  | _, [] => .finished
  | i, it :: rest =>
    match it.data with
    | none => runChainAux entityType content f key (i + 1) rest
    | some d =>
      if jsTruthy d then
        match mkItemReq entityType content f key i it d with
        | none => .crashed
        | some p => .issued p
      else runChainAux entityType content f key (i + 1) rest

/-- The synchronous launch phase of `async.eachOf(content, ...)`: every field's
chain is started immediately, in field order, before any response can arrive;
the pendings collected are the simultaneously outstanding first requests of
every field. The Bool is true when a chain threw synchronously (launching then
stops, as the exception propagates). -/
def initFields (entityType : String) (content : Payload) :
    Nat → List (String × List RefItem) → List Pending × Bool
  | _, [] => ([], false)
  | f, (key, items) :: rest =>
    match runChainAux entityType content f key 0 items with
    | .finished => initFields entityType content (f + 1) rest
    | .issued p =>
      let r := initFields entityType content (f + 1) rest
      (p :: r.1, r.2)
    | .crashed => ([], true)

/-- The identifier field used for the rewrite of a completed request:
`result.fid[0].value` for uploads, `result[childDef.idField][0].value` for
recursive saves; `none` when `entityConfiguration[value.target_type]` is
undefined (the JS rewrite then throws). -/
def idFieldOfReq : DepReq → Option String
  | .fileUpload _ _ => some "fid"
  | .childSave tt _ _ =>
    match tt with
    | none => none
    | some t => (entityConfiguration t).map (fun d => d.idField)

/-- The rewrite value `result[field][0].value` read off a decoded response:
outer `none` when the read throws (field missing or first element missing),
`some tid` the assigned value (`tid = none` models an assigned undefined). -/
def extractId (resp : JSValue) (field : String) : Option (Option JSValue) :=
  match jsGet resp field with
  | none => none
  | some fv =>
    match jsIndex fv 0 with
    | none => none
    | some first => some (jsGet first "value")

/-- Rewrite of an item's target_id, leaving everything else in place. -/
def setTid (it : RefItem) (tid : Option JSValue) : RefItem :=
  { it with target_id := tid }

/-- In-place mutation `content[key][index].target_id = v` at a field position
and item index. -/
def setItemTid (content : Payload) (f i : Nat) (tid : Option JSValue) : Payload :=
  match content[f]? with
  | none => content
  | some (key, items) =>
    match items[i]? with
    | none => content
    | some it => content.set f (key, items.set i (setTid it tid))

/-- Walk state: the live (mutated) payload, the outstanding requests (one per
still-running field chain), and every dependency request issued so far, in
issue order. -/
structure SaveState where
  content : Payload
  pend : List Pending
  trace : List Pending

/-- Result of delivering one response. -/
inductive StepRes where
  | stepped (s : SaveState) : StepRes
  | failedStep (e : String) (s : SaveState) : StepRes
  | crashedStep (s : SaveState) : StepRes

/-- Delivery of one response, to the outstanding request chosen by the
schedule (`choice % pend.length`): an error response makes the eachOf final
callback fire with that first error; a success response rewrites the item's
target_id and resumes that field's chain at the next item. The source does not
cancel sibling requests on error, but nothing issued after the first error can
reach the parent write, so the machine halts there. -/
def completeStep (entityType : String) (env : DepReq → Except String JSValue)
    (s : SaveState) (choice : Nat) : StepRes :=
  if hlen : s.pend.length = 0 then .stepped s
  else
    let c := choice % s.pend.length
    let p := s.pend.get ⟨c, Nat.mod_lt _ (Nat.pos_of_ne_zero hlen)⟩
    match env p.req with
    | .error e => .failedStep e s
    | .ok resp =>
      match idFieldOfReq p.req with
      | none => .crashedStep s
      | some fld =>
        match extractId resp fld with
        | none => .crashedStep s
        | some tid =>
          let content' := setItemTid s.content p.fieldIdx p.itemIdx tid
          let rest :=
            match content'[p.fieldIdx]? with
            | none => []
            | some kv => kv.2.drop (p.itemIdx + 1)
          let others := s.pend.filter (fun q => q.fieldIdx ≠ p.fieldIdx)
          match runChainAux entityType content' p.fieldIdx p.key (p.itemIdx + 1) rest with
          | .finished => .stepped ⟨content', others, s.trace⟩
          | .issued p' => .stepped ⟨content', others ++ [p'], s.trace ++ [p']⟩
          | .crashed => .crashedStep ⟨content', others, s.trace⟩

/-- The parent write request (method, URL and serialized payload). -/
structure ParentWrite where
  method : String
  url : String
  body : Payload

/-- Outcome of one entitySave call. `failedOut` carries the first error, the
requests issued, and the in-memory payload as the failed call leaves it;
`incomplete` means the schedule ran out while requests were outstanding (the
call has not returned yet) and carries the issued and still-outstanding
requests. -/
inductive SaveOutcome where
  | ok (trace : List Pending) (pw : ParentWrite) (res : DecodeOutcome) : SaveOutcome
  | failedOut (trace : List Pending) (e : String) (content : Payload) : SaveOutcome
  | crashedOut (trace : List Pending) : SaveOutcome
  | incomplete (trace : List Pending) (pend : List Pending) : SaveOutcome

/-- JS truthiness of the optional id argument (`id ? PATCH-url : POST-url`). -/
def idTruthy : Option JSValue → Bool
  | none => false
  | some v => jsTruthy v

/-- JavaScript String.replace with a string pattern: first occurrence only. -/
def replaceFirst (s pat rep : String) : String :=
  match s.splitOn pat with
  | [] => s
  | [x] => x
  | x :: y :: rest => x ++ rep ++ String.intercalate pat (y :: rest)

/-- The parent write once every dependency has resolved (src lines 183-197):
PATCH to the entityHandle with the id substituted when the id is truthy,
otherwise POST to the createHandle (string-concatenating `undefined` when the
type declares none, as JS does). The response body is decoded by
processJSONResult and handed to the caller's callback unchanged. -/
def finishSave (baseUrl entityType : String) (id : Option JSValue)
    (parentEnv : ParentWrite → String × Option JSValue) (s : SaveState) : SaveOutcome :=
  match entityConfiguration entityType with
  | none => .crashedOut s.trace
  | some cfg =>
    let part :=
      if idTruthy id then
        replaceFirst cfg.entityHandle "%" ((id.map jsToString).getD "undefined")
      else cfg.createHandle.getD "undefined"
    let pw : ParentWrite :=
      ⟨if idTruthy id then "PATCH" else "POST", baseUrl ++ "/" ++ part ++ "?_format=json", s.content⟩
    let resp := parentEnv pw
    .ok s.trace pw (processJSONResult resp.1 resp.2)

/-- The completion loop: responses arrive in the order given by the schedule;
when no request is outstanding the parent write goes out. -/
def runLoop (baseUrl entityType : String) (id : Option JSValue)
    (env : DepReq → Except String JSValue)
    (parentEnv : ParentWrite → String × Option JSValue) :
    SaveState → List Nat → SaveOutcome
  | s, [] =>
    if s.pend.isEmpty then finishSave baseUrl entityType id parentEnv s
    else .incomplete s.trace s.pend
  | s, c :: sched =>
    if s.pend.isEmpty then finishSave baseUrl entityType id parentEnv s
    else
      match completeStep entityType env s c with
      | .stepped s' => runLoop baseUrl entityType id env parentEnv s' sched
      | .failedStep e s' => .failedOut s'.trace e s'.content
      | .crashedStep s' => .crashedOut s'.trace

/-- Shallow embedding of entitySave: launch every field's chain (eachOf), then
let the schedule drive completions; the parent write goes out only when all
chains are done. `env` supplies the decoded result of each dependency request,
`parentEnv` the raw body (and its parse) of the parent write response. -/
def entitySave (baseUrl entityType : String) (id : Option JSValue) (content : Payload)
    (env : DepReq → Except String JSValue)
    (parentEnv : ParentWrite → String × Option JSValue) (sched : List Nat) : SaveOutcome :=
  let ini := initFields entityType content 0 content
  if ini.2 then .crashedOut ini.1
  else runLoop baseUrl entityType id env parentEnv ⟨content, ini.1, ini.1⟩ sched

/-! ## Invariant of the dependency walk

`PathOk key path` constrains the path of upload requests issued for items of
field `key`; it is instantiated with the trivially true predicate for the
general theorems and with an exact path equation when the payload's `type`
field is known to be stable. -/

/-- The request the walk issues for an item with truthy data: a recursive save
request is fully determined by the item; an upload request carries some path
satisfying `PathOk`. -/
def reqFor (PathOk : String → String → Prop) (key : String) (it : RefItem) (req : DepReq) : Prop :=
  ∃ d, it.data = some d ∧ jsTruthy d = true ∧
    (it.target_type = some "fileUpload" → ∃ path, req = .fileUpload path d ∧ PathOk key path) ∧
    (¬ it.target_type = some "fileUpload" → req = .childSave it.target_type it.target_id d)

/-- An already-visited item of a field: items with truthy data have been
rewritten to the identifier extracted from the environment's response to their
(traced) request; all other items are untouched. -/
def itemResolved (env : DepReq → Except String JSValue) (PathOk : String → String → Prop)
    (trace : List Pending) (f : Nat) (key : String) (i : Nat) (oi ci : RefItem) : Prop :=
  (hasData oi = false → ci = oi) ∧
  (hasData oi = true →
    ∃ req resp fld tid,
      reqFor PathOk key oi req ∧
      (∃ q, q ∈ trace ∧ q.fieldIdx = f ∧ q.itemIdx = i ∧ q.req = req) ∧
      env req = .ok resp ∧ idFieldOfReq req = some fld ∧
      extractId resp fld = some tid ∧ ci = setTid oi tid)

/-- A field whose chain has run to completion: every item is resolved. -/
def fieldDone (env : DepReq → Except String JSValue) (PathOk : String → String → Prop)
    (trace : List Pending) (f : Nat) (key : String) (origItems curItems : List RefItem) : Prop :=
  ∀ i oi ci, origItems[i]? = some oi → curItems[i]? = some ci →
    itemResolved env PathOk trace f key i oi ci

/-- A field whose chain is suspended on the outstanding request `p`: items
before `p.itemIdx` are resolved, items from `p.itemIdx` on are untouched, and
`p` is the request of the item at `p.itemIdx`. -/
def fieldPend (env : DepReq → Except String JSValue) (PathOk : String → String → Prop)
    (trace : List Pending) (f : Nat) (key : String) (origItems curItems : List RefItem)
    (p : Pending) : Prop :=
  p.fieldIdx = f ∧ p.key = key ∧ p.itemIdx < origItems.length ∧
  (∀ i oi ci, i < p.itemIdx → origItems[i]? = some oi → curItems[i]? = some ci →
    itemResolved env PathOk trace f key i oi ci) ∧
  (∀ i oi ci, p.itemIdx ≤ i → origItems[i]? = some oi → curItems[i]? = some ci → ci = oi) ∧
  (∃ oi, origItems[p.itemIdx]? = some oi ∧ hasData oi = true ∧ reqFor PathOk key oi p.req)

/-- The walk invariant: each field is either done or suspended on its unique
outstanding request; every outstanding request was issued; a field's issued
requests never run ahead of its outstanding one; and within one field the
issue trace is strictly increasing in item index (sequentiality within a
field). -/
def stateInv (env : DepReq → Except String JSValue) (PathOk : String → String → Prop)
    (orig : Payload) (s : SaveState) : Prop :=
  s.content.length = orig.length ∧
  (∀ (f : Nat) (key : String) (origItems : List RefItem), orig[f]? = some (key, origItems) →
    ∃ (curItems : List RefItem),
      s.content[f]? = some (key, curItems) ∧ curItems.length = origItems.length ∧
      ((∀ p ∈ s.pend, p.fieldIdx ≠ f) ∧ fieldDone env PathOk s.trace f key origItems curItems
       ∨ ∃ p, p ∈ s.pend ∧ (∀ q ∈ s.pend, q.fieldIdx = f → q = p) ∧
           fieldPend env PathOk s.trace f key origItems curItems p)) ∧
  (∀ p ∈ s.pend, p.fieldIdx < orig.length) ∧
  (∀ p ∈ s.pend, p ∈ s.trace) ∧
  (∀ q ∈ s.trace, ∀ p ∈ s.pend, q.fieldIdx = p.fieldIdx → q.itemIdx ≤ p.itemIdx) ∧
  s.trace.Pairwise (fun a b => a.fieldIdx = b.fieldIdx → a.itemIdx < b.itemIdx)

/-- The unconstrained upload-path predicate, used when nothing about the
payload's `type` field is assumed. -/
def anyPath : String → String → Prop := fun _ _ => True

/-- The dependency-request trace of an outcome, whatever kind it is. -/
def saveTrace : SaveOutcome → List Pending
  | .ok tr _ _ => tr
  | .failedOut tr _ _ => tr
  | .crashedOut tr => tr
  | .incomplete tr _ => tr

/-- The coarse relation between the original payload and the live payload at
any point of the walk: same shape, every item either untouched or a target_id
rewrite of an item with truthy data. Rewrites are never rolled back. -/
def contentRel (orig content : Payload) : Prop :=
  content.length = orig.length ∧
  ∀ (f : Nat) (key : String) (origItems : List RefItem), orig[f]? = some (key, origItems) →
    ∃ (curItems : List RefItem),
      content[f]? = some (key, curItems) ∧ curItems.length = origItems.length ∧
      ∀ (i : Nat) (oi ci : RefItem), origItems[i]? = some oi → curItems[i]? = some ci →
        (ci = oi ∨ (hasData oi = true ∧ ∃ tid, ci = setTid oi tid))

/-! # Theorems -/

/-! ## Response decoder -/

lemma decode_message_envelope (body : String) (fields : List (String × JSValue)) (m : JSValue)
    (hm : jsGet (.obj fields) "message" = some m) :
    processJSONResult body (some (.obj fields)) =
      .callbackCalled (some (jsToString m)) none := by
  simp [processJSONResult, jsTruthy, isObjectLike, hm]

/-- C4 counterexample: on the body "5" (which JSON.parse turns into the truthy
number 5) the decoder reaches `'message' in data` with a primitive operand and
throws a TypeError, so the callback is never invoked — refuting the claim that
the decoder never throws and always invokes its callback once, in particular
for bodies parsing to a number. -/
theorem processJSONResult_thrown_on_number :
    processJSONResult "5" (some (.num 5)) = .thrown := rfl

/-- C4 (amended): the decoder invokes its callback exactly once with either
parsed data or a descriptive error for every body whose parse outcome is a
parse failure, an object, an array, or a falsy primitive; but for a body that
parses to a truthy primitive (a nonzero number, nonempty string, or true) the
decoder throws a TypeError and the callback never fires. -/
theorem processJSONResult_callback_unless_truthy_primitive
    (body : String) (parsed : Option JSValue) :
    ((∀ v, parsed = some v → jsTruthy v = true → isObjectLike v = true) →
      ∃ e d, processJSONResult body parsed = .callbackCalled e d) ∧
    (∀ v, parsed = some v → jsTruthy v = true → isObjectLike v = false →
      processJSONResult body parsed = .thrown) := by
  constructor
  · intro h
    cases parsed with
    | none => exact ⟨some body, none, rfl⟩
    | some v =>
      cases v with
      | null => exact ⟨none, some .null, rfl⟩
      | bool b =>
        cases b with
        | false => exact ⟨none, some (.bool false), rfl⟩
        | true => exact absurd (h _ rfl rfl) (by simp [isObjectLike])
      | num n =>
        by_cases h0 : n = 0
        · subst h0; exact ⟨none, some (.num 0), rfl⟩
        · exact absurd (h (.num n) rfl (by simp [jsTruthy, h0])) (by simp [isObjectLike])
      | str s =>
        by_cases h0 : s = ""
        · subst h0; exact ⟨none, some (.str ""), rfl⟩
        · exact absurd (h (.str s) rfl (by simp [jsTruthy, h0])) (by simp [isObjectLike])
      | arr xs =>
        exact ⟨none, some (.arr xs), by simp [processJSONResult, jsTruthy, isObjectLike, jsGet]⟩
      | obj fs =>
        cases hg : jsGet (.obj fs) "message" with
        | none =>
          exact ⟨none, some (.obj fs), by simp [processJSONResult, jsTruthy, isObjectLike, hg]⟩
        | some m =>
          exact ⟨some (jsToString m), none,
            by simp [processJSONResult, jsTruthy, isObjectLike, hg]⟩
  · intro v hv ht hob
    subst hv
    cases v <;> simp_all [processJSONResult, jsTruthy, isObjectLike]

theorem processJSONResult_callback_unless_truthy_primitive_witness :
    ∃ e d, processJSONResult "\x7b\x7d" (some (.obj [])) = .callbackCalled e d :=
  (processJSONResult_callback_unless_truthy_primitive "\x7b\x7d" (some (.obj []))).1
    (by intro v hv ht; cases hv; rfl)

/-- C5: whenever the body parses to an object carrying a `message` field, the
decoder discards the parsed data (data = null) and fails with an error whose
message is the String() rendering of that field's value. -/
theorem processJSONResult_message_discards_data (body : String)
    (fields : List (String × JSValue)) (m : JSValue)
    (hm : jsGet (.obj fields) "message" = some m) :
    processJSONResult body (some (.obj fields)) =
      .callbackCalled (some (jsToString m)) none :=
  decode_message_envelope body fields m hm

theorem processJSONResult_message_discards_data_witness :
    processJSONResult "\x7b\"message\":\"Not found\"\x7d"
        (some (.obj [("message", .str "Not found")])) =
      .callbackCalled (some "Not found") none :=
  processJSONResult_message_discards_data _ _ (.str "Not found") rfl

/-- C10: entityRemove treats an empty response body as success, invoking the
callback with no error and no data and bypassing the decoder; every non-empty
body goes through processJSONResult like the other operations, so a JSON error
envelope from a delete still surfaces as an error. -/
theorem entityRemove_empty_body_succeeds (body : String) (parsed : Option JSValue)
    (fields : List (String × JSValue)) (m : JSValue) :
    (entityRemoveBody "" parsed = .doneNoData) ∧
    (body ≠ "" → entityRemoveBody body parsed = .decoded (processJSONResult body parsed)) ∧
    (body ≠ "" → parsed = some (.obj fields) → jsGet (.obj fields) "message" = some m →
      entityRemoveBody body parsed =
        .decoded (.callbackCalled (some (jsToString m)) none)) := by
  refine ⟨rfl, fun h => by simp [entityRemoveBody, h], fun h hp hm => ?_⟩
  subst hp
  simp [entityRemoveBody, h, decode_message_envelope body fields m hm]

theorem entityRemove_empty_body_succeeds_witness :
    entityRemoveBody "\x7b\"message\":\"err\"\x7d" (some (.obj [("message", .str "err")])) =
      .decoded (.callbackCalled (some "err") none) :=
  (entityRemove_empty_body_succeeds "\x7b\"message\":\"err\"\x7d"
      (some (.obj [("message", .str "err")])) [("message", .str "err")] (.str "err")).2.2
    (by decide) rfl rfl

/-! ## Paginated export driver -/

lemma loadSeq_ok_of_ok (itemLoad : JSValue → Except String JSValue) (loadF : JSValue → JSValue)
    (h : ∀ v, itemLoad v = .ok (loadF v)) :
    ∀ l : List JSValue, loadSeq itemLoad l = .ok (l.map loadF) := by
  intro l
  induction l with
  | nil => rfl
  | cons x xs ih => simp [loadSeq, h x, ih]

lemma exportRun_succ (ep : Option Nat) (pages : Nat → List JSValue)
    (itemLoad : JSValue → Except String JSValue) (f : Nat) (s : ExportState) :
    exportRun ep pages itemLoad (f + 1) s =
      match exportStep ep pages itemLoad s with
      | (some e, s') => some (some e, s')
      | (none, s') =>
        if s'.notDone then exportRun ep pages itemLoad f s' else some (none, s') := rfl

lemma exportStep_past (e : Nat) (pages : Nat → List JSValue)
    (itemLoad : JSValue → Except String JSValue) (s : ExportState) (h : s.page > e) :
    exportStep (some e) pages itemLoad s = (none, { s with notDone := false }) := by
  simp [exportStep, h]

lemma exportStep_fetch (ep : Option Nat) (pages : Nat → List JSValue)
    (itemLoad : JSValue → Except String JSValue) (loadF : JSValue → JSValue)
    (hl : ∀ v, itemLoad v = .ok (loadF v)) (s : ExportState) (h : ∀ e ∈ ep, s.page ≤ e) :
    exportStep ep pages itemLoad s =
      (none, ⟨s.page + 1, (if (pages s.page).length = 0 then false else s.notDone),
              s.result ++ (pages s.page).map loadF, s.fetched ++ [s.page]⟩) := by
  have hmap := loadSeq_ok_of_ok itemLoad loadF hl (pages s.page)
  cases ep with
  | none =>
    simp only [exportStep, pageFetch, hmap]
  | some e =>
    have hle : ¬ s.page > e := by
      have := h e rfl
      omega
    simp only [exportStep, pageFetch, if_neg hle, hmap]

lemma exportRun_reach_endPage
    (pages : Nat → List JSValue) (itemLoad : JSValue → Except String JSValue)
    (loadF : JSValue → JSValue) (hl : ∀ v, itemLoad v = .ok (loadF v)) (e : Nat) :
    ∀ (n p : Nat) (r : List JSValue) (fs : List Nat) (fuel : Nat),
      p + n = e → (∀ j, p ≤ j → j < e → pages j ≠ []) → n + 2 ≤ fuel →
      exportRun (some e) pages itemLoad fuel ⟨p, true, r, fs⟩ =
        some (none, ⟨e + 1, false, r ++ concatPages pages loadF p (n + 1),
                     fs ++ List.range' p (n + 1)⟩) := by
  intro n
  induction n with
  | zero =>
    intro p r fs fuel hpe hne hfuel
    have hp : p = e := by omega
    subst hp
    obtain ⟨f, rfl⟩ : ∃ f, fuel = f + 2 := ⟨fuel - 2, by omega⟩
    rw [exportRun_succ,
      exportStep_fetch (some p) pages itemLoad loadF hl _ (by intro x hx; cases hx; exact le_rfl)]
    by_cases hde : (pages p).length = 0
    · have hd0 : pages p = [] := List.length_eq_zero.mp hde
      simp [hde, hd0, concatPages, List.range'_one]
    · simp only [if_neg hde, if_true]
      have hf1 : f + 1 = f + 1 := rfl
      rw [exportRun_succ, exportStep_past p pages itemLoad _ (by simp)]
      simp [concatPages, List.range'_one]
  | succ n ih =>
    intro p r fs fuel hpe hne hfuel
    obtain ⟨f, rfl⟩ : ∃ f, fuel = f + 1 := ⟨fuel - 1, by omega⟩
    have hpne : ¬ (pages p).length = 0 := by
      simpa [List.length_eq_zero] using hne p le_rfl (by omega)
    rw [exportRun_succ,
      exportStep_fetch (some e) pages itemLoad loadF hl _
        (by intro x hx; cases hx; show p ≤ e; omega)]
    simp only [if_neg hpne, if_true]
    rw [ih (p + 1) (r ++ (pages p).map loadF) (fs ++ [p]) f (by omega)
      (fun j hj hje => hne j (by omega) hje) (by omega)]
    simp [concatPages, List.append_assoc, List.range'_succ p (n + 1) 1]

lemma exportRun_reach_empty
    (pages : Nat → List JSValue) (itemLoad : JSValue → Except String JSValue)
    (loadF : JSValue → JSValue) (hl : ∀ v, itemLoad v = .ok (loadF v)) :
    ∀ (n p : Nat) (r : List JSValue) (fs : List Nat) (fuel : Nat),
      pages (p + n) = [] → (∀ j, p ≤ j → j < p + n → pages j ≠ []) → n + 1 ≤ fuel →
      exportRun none pages itemLoad fuel ⟨p, true, r, fs⟩ =
        some (none, ⟨p + n + 1, false, r ++ concatPages pages loadF p n,
                     fs ++ List.range' p (n + 1)⟩) := by
  intro n
  induction n with
  | zero =>
    intro p r fs fuel hpe hne hfuel
    obtain ⟨f, rfl⟩ : ∃ f, fuel = f + 1 := ⟨fuel - 1, by omega⟩
    have hp0 : pages p = [] := by simpa using hpe
    rw [exportRun_succ, exportStep_fetch none pages itemLoad loadF hl _ (by intro x hx; cases hx)]
    simp [hp0, concatPages, List.range'_one]
  | succ n ih =>
    intro p r fs fuel hpe hne hfuel
    obtain ⟨f, rfl⟩ : ∃ f, fuel = f + 1 := ⟨fuel - 1, by omega⟩
    have hpne : ¬ (pages p).length = 0 := by
      simpa [List.length_eq_zero] using hne p le_rfl (by omega)
    rw [exportRun_succ, exportStep_fetch none pages itemLoad loadF hl _ (by intro x hx; cases hx)]
    simp only [if_neg hpne, if_true]
    rw [ih (p + 1) (r ++ (pages p).map loadF) (fs ++ [p]) f
      (by rw [show p + 1 + n = p + (n + 1) by omega]; exact hpe)
      (fun j hj hje => hne j (by omega) (by omega)) (by omega)]
    have harith : p + 1 + n = p + (n + 1) := by omega
    simp [harith, concatPages, List.append_assoc, List.range'_succ p (n + 1) 1]

/-- C3 counterexample: supplying endPage = 0 does not bound the export at page
0. `options.endPage || null` drops the falsy 0, so with every page up to 3
nonempty and page 3 empty the driver fetches pages 0, 1, 2 and 3 — it runs
past the requested endPage 0 and stops only at the empty page, refuting the
claim for n = 0. -/
theorem loadRestExport_endPage_zero_ignored :
    loadRestExport ⟨none, none, some 0⟩
        (fun j => if j < 3 then [.num 1] else []) (fun v => .ok v) 10 =
      some (none, [.num 1, .num 1, .num 1], [0, 1, 2, 3]) := rfl

/-- C3 (amended): for every endPage n with n ≥ 1 and n ≥ startPage (an
endPage of 0 is falsy and therefore treated as unset by
`options.endPage || null`), a paginated export fetches exactly the pages
startPage through n inclusive and then terminates, regardless of page
contents, provided no page before n is empty and per-item resolution
succeeds. -/
theorem loadRestExport_endPage_bounded
    (opts : ExportOptions) (pages : Nat → List JSValue)
    (itemLoad : JSValue → Except String JSValue) (loadF : JSValue → JSValue)
    (fuel n s0 : Nat)
    (hend : opts.endPage = some n) (hn : 1 ≤ n)
    (hpag : ¬ opts.paginated = some false)
    (hstart : opts.startPage.getD 0 = s0) (hs : s0 ≤ n)
    (hl : ∀ v, itemLoad v = .ok (loadF v))
    (hne : ∀ j, s0 ≤ j → j < n → pages j ≠ [])
    (hfuel : n - s0 + 2 ≤ fuel) :
    loadRestExport opts pages itemLoad fuel =
      some (none, concatPages pages loadF s0 (n - s0 + 1), List.range' s0 (n - s0 + 1)) := by
  have hjs : jsOrNum (some n) none = some n := by simp [jsOrNum]; omega
  simp only [loadRestExport, hstart, hend, hjs, if_neg hpag]
  rw [exportRun_reach_endPage pages itemLoad loadF hl n (n - s0) s0 [] [] fuel
      (by omega) hne (by omega)]
  simp

theorem loadRestExport_endPage_bounded_witness :
    loadRestExport ⟨none, some 1, some 2⟩ (fun _ => [.num 7]) (fun v => .ok v) 3 =
      some (none, [.num 7, .num 7], [1, 2]) :=
  loadRestExport_endPage_bounded ⟨none, some 1, some 2⟩ (fun _ => [.num 7])
    (fun v => .ok v) (fun v => v) 3 2 1 rfl (by omega) (by simp) rfl (by omega)
    (fun _ => rfl) (fun _ _ _ => List.cons_ne_nil _ _) (by omega)

/-- C8: with no endPage supplied (and pagination not disabled), the export
stops exactly at the first empty page — pages startPage through that page are
fetched and none after it — and the list handed to the final callback is the
concatenation of all prior pages' resolved items, in page order with in-page
order preserved. -/
theorem loadRestExport_stops_at_first_empty
    (opts : ExportOptions) (pages : Nat → List JSValue)
    (itemLoad : JSValue → Except String JSValue) (loadF : JSValue → JSValue)
    (fuel k s0 : Nat)
    (hend : opts.endPage = none)
    (hpag : ¬ opts.paginated = some false)
    (hstart : opts.startPage.getD 0 = s0) (hs : s0 ≤ k)
    (hl : ∀ v, itemLoad v = .ok (loadF v))
    (hempty : pages k = [])
    (hne : ∀ j, s0 ≤ j → j < k → pages j ≠ [])
    (hfuel : k - s0 + 1 ≤ fuel) :
    loadRestExport opts pages itemLoad fuel =
      some (none, concatPages pages loadF s0 (k - s0), List.range' s0 (k - s0 + 1)) := by
  have hjs : jsOrNum none none = (none : Option Nat) := rfl
  simp only [loadRestExport, hstart, hend, hjs, if_neg hpag]
  rw [exportRun_reach_empty pages itemLoad loadF hl (k - s0) s0 [] [] fuel
      (by rw [show s0 + (k - s0) = k by omega]; exact hempty)
      (fun j hj hje => hne j hj (by omega)) (by omega)]
  simp

theorem loadRestExport_stops_at_first_empty_witness :
    loadRestExport ⟨some true, none, none⟩
        (fun j => if j = 0 then [.num 3, .num 4] else []) (fun v => .ok v) 2 =
      some (none, [.num 3, .num 4], [0, 1]) :=
  loadRestExport_stops_at_first_empty ⟨some true, none, none⟩
    (fun j => if j = 0 then [.num 3, .num 4] else []) (fun v => .ok v) (fun v => v)
    2 1 0 rfl (by simp) rfl (by omega) (fun _ => rfl) rfl
    (fun j hj hje => by interval_cases j; simp) (by omega)

/-! ## Entity persistence engine: helper lemmas -/

lemma getElem?_lt_length {α : Type} {l : List α} {i : Nat} {a : α} (h : l[i]? = some a) :
    i < l.length := by
  obtain ⟨h1, -⟩ := List.getElem?_eq_some.mp h
  exact h1

lemma untouched_getElem? {cur origItems : List RefItem} (hlen : cur.length = origItems.length)
    (b : Nat)
    (hu : ∀ i oi ci, b ≤ i → origItems[i]? = some oi → cur[i]? = some ci → ci = oi) :
    ∀ k, b ≤ k → cur[k]? = origItems[k]? := by
  intro k hk
  cases ho : origItems[k]? with
  | none =>
    refine List.getElem?_eq_none ?_
    by_contra hlt
    push_neg at hlt
    have hko : k < origItems.length := by omega
    rw [List.getElem?_eq_getElem hko] at ho
    cases ho
  | some oi =>
    have hko : k < origItems.length := getElem?_lt_length ho
    have hkc : k < cur.length := by omega
    obtain ⟨ci, hc⟩ : ∃ ci, cur[k]? = some ci := ⟨_, List.getElem?_eq_getElem hkc⟩
    rw [hc, hu k oi ci hk ho hc]

lemma pairwise_fieldIdx_unique {l : List Pending}
    (h : l.Pairwise (fun a b => a.fieldIdx < b.fieldIdx)) :
    ∀ p ∈ l, ∀ q ∈ l, p.fieldIdx = q.fieldIdx → p = q := by
  induction l with
  | nil => intro p hp; cases hp
  | cons x xs ih =>
    intro p hp q hq heq
    rcases List.mem_cons.mp hp with rfl | hp' <;> rcases List.mem_cons.mp hq with rfl | hq'
    · rfl
    · exact absurd heq (by have := (List.pairwise_cons.mp h).1 q hq'; omega)
    · exact absurd heq (by have := (List.pairwise_cons.mp h).1 p hp'; omega)
    · exact ih (List.pairwise_cons.mp h).2 p hp' q hq' heq

lemma mkItemReq_spec {et : String} {c : Payload} {f : Nat} {key : String} {i : Nat}
    {it : RefItem} {d : JSValue} {p : Pending} (h : mkItemReq et c f key i it d = some p) :
    p.fieldIdx = f ∧ p.key = key ∧ p.itemIdx = i ∧
      (it.target_type = some "fileUpload" →
        ∃ tid, typeTargetId c = some tid ∧ p.req = .fileUpload (uploadPath et tid key) d) ∧
      (¬ it.target_type = some "fileUpload" →
        p.req = .childSave it.target_type it.target_id d) := by
  unfold mkItemReq at h
  by_cases hs : it.target_type = some "fileUpload"
  · rw [if_pos hs] at h
    cases htid : typeTargetId c with
    | none => rw [htid] at h; cases h
    | some tid =>
      rw [htid] at h
      cases h
      exact ⟨rfl, rfl, rfl, fun _ => ⟨tid, rfl, rfl⟩, fun hn => absurd hs hn⟩
  · rw [if_neg hs] at h
    cases h
    exact ⟨rfl, rfl, rfl, fun hy => absurd hy hs, fun _ => rfl⟩

lemma reqFor_of_mkItemReq {PathOk : String → String → Prop} {et : String} {orig c : Payload}
    {f : Nat} {key : String} {i : Nat} {it : RefItem} {d : JSValue} {p : Pending}
    (Hpath : ∀ c', contentRel orig c' → ∀ k tid, typeTargetId c' = some tid →
      PathOk k (uploadPath et tid k))
    (hrel : contentRel orig c)
    (hd : it.data = some d) (ht : jsTruthy d = true)
    (h : mkItemReq et c f key i it d = some p) : reqFor PathOk key it p.req := by
  obtain ⟨-, -, -, hup, hch⟩ := mkItemReq_spec h
  refine ⟨d, hd, ht, fun hy => ?_, fun hn => hch hn⟩
  obtain ⟨tid, htid, hreq⟩ := hup hy
  exact ⟨uploadPath et tid key, hreq, Hpath c hrel key tid htid⟩

lemma runChainAux_finished {et : String} {c : Payload} {f : Nat} {key : String} :
    ∀ (rest : List RefItem) (i : Nat), runChainAux et c f key i rest = .finished →
      ∀ (j : Nat) (it : RefItem), rest[j]? = some it → hasData it = false := by
  intro rest
  induction rest with
  | nil => intro i _ j it hj; simp at hj
  | cons x xs ih =>
    intro i h j it hj
    cases hx : x.data with
    | none =>
      simp only [runChainAux, hx] at h
      cases j with
      | zero =>
        rw [List.getElem?_cons_zero] at hj
        cases hj
        simp [hasData, hx]
      | succ j' =>
        rw [List.getElem?_cons_succ] at hj
        exact ih (i + 1) h j' it hj
    | some d =>
      cases ht : jsTruthy d with
      | true =>
        exfalso
        simp only [runChainAux, hx, ht, if_true] at h
        cases hmk : mkItemReq et c f key i x d <;> rw [hmk] at h <;> cases h
      | false =>
        simp only [runChainAux, hx, ht] at h
        rw [if_neg (by simp)] at h
        cases j with
        | zero =>
          rw [List.getElem?_cons_zero] at hj
          cases hj
          simp [hasData, hx, ht]
        | succ j' =>
          rw [List.getElem?_cons_succ] at hj
          exact ih (i + 1) h j' it hj

lemma runChainAux_issued {et : String} {c : Payload} {f : Nat} {key : String} :
    ∀ (rest : List RefItem) (i : Nat) (p' : Pending),
      runChainAux et c f key i rest = .issued p' →
      ∃ (j : Nat) (it : RefItem) (d : JSValue),
        rest[j]? = some it ∧
        (∀ (j' : Nat) (it' : RefItem), j' < j → rest[j']? = some it' → hasData it' = false) ∧
        it.data = some d ∧ jsTruthy d = true ∧
        mkItemReq et c f key (i + j) it d = some p' := by
  intro rest
  induction rest with
  | nil => intro i p' h; simp [runChainAux] at h
  | cons x xs ih =>
    intro i p' h
    cases hx : x.data with
    | none =>
      simp only [runChainAux, hx] at h
      obtain ⟨j, it, d, h1, h2, h3, h4, h5⟩ := ih (i + 1) p' h
      refine ⟨j + 1, it, d, by simpa using h1, ?_, h3, h4,
        by rw [show i + (j + 1) = i + 1 + j by omega]; exact h5⟩
      intro j' it' hj' hget
      cases j' with
      | zero =>
        rw [List.getElem?_cons_zero] at hget
        cases hget
        simp [hasData, hx]
      | succ j'' =>
        rw [List.getElem?_cons_succ] at hget
        exact h2 j'' it' (by omega) hget
    | some d =>
      cases ht : jsTruthy d with
      | true =>
        simp only [runChainAux, hx, ht, if_true] at h
        cases hmk : mkItemReq et c f key i x d with
        | none => rw [hmk] at h; cases h
        | some p =>
          rw [hmk] at h
          cases h
          exact ⟨0, x, d, List.getElem?_cons_zero,
            fun j' it' hj' _ => absurd hj' (Nat.not_lt_zero j'),
            hx, ht, by simpa using hmk⟩
      | false =>
        simp only [runChainAux, hx, ht] at h
        rw [if_neg (by simp)] at h
        obtain ⟨j, it, d', h1, h2, h3, h4, h5⟩ := ih (i + 1) p' h
        refine ⟨j + 1, it, d', by simpa using h1, ?_, h3, h4,
          by rw [show i + (j + 1) = i + 1 + j by omega]; exact h5⟩
        intro j' it' hj' hget
        cases j' with
        | zero =>
          rw [List.getElem?_cons_zero] at hget
          cases hget
          simp [hasData, hx, ht]
        | succ j'' =>
          rw [List.getElem?_cons_succ] at hget
          exact h2 j'' it' (by omega) hget

lemma setItemTid_length (cont : Payload) (f i : Nat) (tid : Option JSValue) :
    (setItemTid cont f i tid).length = cont.length := by
  unfold setItemTid
  split
  · rfl
  · split
    · rfl
    · exact List.length_set cont f _

lemma setItemTid_get_ne (cont : Payload) (f i : Nat) (tid : Option JSValue) (g : Nat)
    (h : ¬ g = f) : (setItemTid cont f i tid)[g]? = cont[g]? := by
  unfold setItemTid
  split
  · rfl
  · split
    · rfl
    · exact List.getElem?_set_ne (by omega)

lemma setItemTid_get_self (cont : Payload) (f i : Nat) (tid : Option JSValue) (key : String)
    (items : List RefItem) (it : RefItem)
    (hf : cont[f]? = some (key, items)) (hi : items[i]? = some it) :
    (setItemTid cont f i tid)[f]? = some (key, items.set i (setTid it tid)) := by
  simp only [setItemTid, hf, hi]
  exact List.getElem?_set_self (getElem?_lt_length hf)

lemma itemResolved_mono {env : DepReq → Except String JSValue}
    {PathOk : String → String → Prop} {tr tr' : List Pending} {f : Nat} {key : String}
    {i : Nat} {oi ci : RefItem}
    (hsub : ∀ q ∈ tr, q ∈ tr') (h : itemResolved env PathOk tr f key i oi ci) :
    itemResolved env PathOk tr' f key i oi ci := by
  obtain ⟨h0, h1⟩ := h
  refine ⟨h0, fun hD => ?_⟩
  obtain ⟨req, resp, fld, tid, a1, ⟨q, hq, b1, b2, b3⟩, a3, a4, a5, a6⟩ := h1 hD
  exact ⟨req, resp, fld, tid, a1, ⟨q, hsub q hq, b1, b2, b3⟩, a3, a4, a5, a6⟩

lemma itemResolved_cases {env : DepReq → Except String JSValue}
    {PathOk : String → String → Prop} {tr : List Pending} {f : Nat} {key : String}
    {i : Nat} {oi ci : RefItem} (h : itemResolved env PathOk tr f key i oi ci) :
    ci = oi ∨ (hasData oi = true ∧ ∃ tid, ci = setTid oi tid) := by
  obtain ⟨h0, h1⟩ := h
  rcases Bool.eq_false_or_eq_true (hasData oi) with hD | hD
  · obtain ⟨req, resp, fld, tid, -, -, -, -, -, hci⟩ := h1 hD
    exact Or.inr ⟨hD, tid, hci⟩
  · exact Or.inl (h0 hD)

lemma contentRel_refl (orig : Payload) : contentRel orig orig := by
  refine ⟨rfl, fun f key items hf => ⟨items, hf, rfl, fun i oi ci h1 h2 => ?_⟩⟩
  rw [h1] at h2
  exact Or.inl (Option.some.inj h2).symm

lemma stateInv_contentRel {env : DepReq → Except String JSValue}
    {PathOk : String → String → Prop} {orig : Payload} {s : SaveState}
    (h : stateInv env PathOk orig s) : contentRel orig s.content := by
  obtain ⟨hlen, hfields, -, -, -, -⟩ := h
  refine ⟨hlen, fun f key origItems hf => ?_⟩
  obtain ⟨cur, hcur, hclen, hdisj⟩ := hfields f key origItems hf
  refine ⟨cur, hcur, hclen, fun i oi ci h1 h2 => ?_⟩
  rcases hdisj with ⟨-, hdone⟩ | ⟨p, -, -, hpend⟩
  · exact itemResolved_cases (hdone i oi ci h1 h2)
  · obtain ⟨-, -, -, hres, hun, -⟩ := hpend
    by_cases hi : i < p.itemIdx
    · exact itemResolved_cases (hres i oi ci hi h1 h2)
    · exact Or.inl (hun i oi ci (by omega) h1 h2)

lemma runChainAux_issued_tags {et : String} {cont : Payload} {f : Nat} {key : String}
    {rest : List RefItem} {i : Nat} {p : Pending}
    (h : runChainAux et cont f key i rest = .issued p) :
    p.fieldIdx = f ∧ p.key = key ∧ i ≤ p.itemIdx := by
  obtain ⟨j, it, d, -, -, -, -, hmk⟩ := runChainAux_issued rest i p h
  obtain ⟨h1, h2, h3, -, -⟩ := mkItemReq_spec hmk
  exact ⟨h1, h2, by omega⟩

lemma initFields_pairwise (et : String) (cont : Payload) :
    ∀ (flds : List (String × List RefItem)) (f0 : Nat),
      (∀ q ∈ (initFields et cont f0 flds).1, f0 ≤ q.fieldIdx) ∧
      (initFields et cont f0 flds).1.Pairwise (fun a b => a.fieldIdx < b.fieldIdx) := by
  intro flds
  induction flds with
  | nil =>
    intro f0
    exact ⟨fun q hq => absurd hq (List.not_mem_nil q), List.Pairwise.nil⟩
  | cons kv rest ih =>
    obtain ⟨key0, items0⟩ := kv
    intro f0
    cases hrc : runChainAux et cont f0 key0 0 items0 with
    | finished =>
      have heq : initFields et cont f0 ((key0, items0) :: rest) =
          initFields et cont (f0 + 1) rest := by
        simp only [initFields, hrc]
      rw [heq]
      obtain ⟨hb, hp⟩ := ih (f0 + 1)
      exact ⟨fun q hq => by have := hb q hq; omega, hp⟩
    | issued p =>
      have heq : initFields et cont f0 ((key0, items0) :: rest) =
          (p :: (initFields et cont (f0 + 1) rest).1, (initFields et cont (f0 + 1) rest).2) := by
        simp only [initFields, hrc]
      rw [heq]
      obtain ⟨hb, hpw⟩ := ih (f0 + 1)
      obtain ⟨hpf, -, -⟩ := runChainAux_issued_tags hrc
      constructor
      · intro q hq
        rcases List.mem_cons.mp hq with rfl | hq'
        · omega
        · have := hb q hq'; omega
      · refine List.Pairwise.cons (fun q hq => ?_) hpw
        have := hb q hq
        omega
    | crashed =>
      have heq : initFields et cont f0 ((key0, items0) :: rest) = ([], true) := by
        simp only [initFields, hrc]
      rw [heq]
      exact ⟨fun q hq => absurd hq (List.not_mem_nil q), List.Pairwise.nil⟩

lemma initFields_spec (et : String) (cont : Payload) :
    ∀ (flds : List (String × List RefItem)) (f0 : Nat) (ps : List Pending),
      initFields et cont f0 flds = (ps, false) →
      (∀ q ∈ ps, f0 ≤ q.fieldIdx ∧ q.fieldIdx < f0 + flds.length ∧
        ∃ key items, flds[q.fieldIdx - f0]? = some (key, items) ∧
          runChainAux et cont q.fieldIdx key 0 items = .issued q) ∧
      (∀ (g : Nat) (key : String) (items : List RefItem), flds[g]? = some (key, items) →
        (∃ q ∈ ps, q.fieldIdx = f0 + g) ∨
          runChainAux et cont (f0 + g) key 0 items = .finished) := by
  intro flds
  induction flds with
  | nil =>
    intro f0 ps h
    simp only [initFields] at h
    injection h with h1 h2
    subst h1
    exact ⟨fun q hq => absurd hq (List.not_mem_nil q),
      fun g key items hg => by simp at hg⟩
  | cons kv rest ih =>
    obtain ⟨key0, items0⟩ := kv
    intro f0 ps h
    cases hrc : runChainAux et cont f0 key0 0 items0 with
    | finished =>
      simp only [initFields, hrc] at h
      obtain ⟨c1, c2⟩ := ih (f0 + 1) ps h
      constructor
      · intro q hq
        obtain ⟨b1, b2, key', items', hidx, hrun⟩ := c1 q hq
        refine ⟨by omega, by rw [List.length_cons]; omega, key', items', ?_, hrun⟩
        obtain ⟨k, hk⟩ : ∃ k, q.fieldIdx - f0 = k + 1 := ⟨q.fieldIdx - f0 - 1, by omega⟩
        rw [hk, List.getElem?_cons_succ, show k = q.fieldIdx - (f0 + 1) by omega]
        exact hidx
      · intro g key items hg
        cases g with
        | zero =>
          rw [List.getElem?_cons_zero] at hg
          cases hg
          exact Or.inr (by simpa using hrc)
        | succ g' =>
          rw [List.getElem?_cons_succ] at hg
          rcases c2 g' key items hg with ⟨q, hq, hqf⟩ | hfin
          · exact Or.inl ⟨q, hq, by omega⟩
          · exact Or.inr (by rw [show f0 + (g' + 1) = f0 + 1 + g' by omega]; exact hfin)
    | issued p =>
      simp only [initFields, hrc] at h
      cases hY : initFields et cont (f0 + 1) rest with
      | mk ps' crashed' =>
        rw [hY] at h
        injection h with h1 h2
        subst h1
        subst h2
        obtain ⟨c1, c2⟩ := ih (f0 + 1) ps' hY
        obtain ⟨hpf, hpk, -⟩ := runChainAux_issued_tags hrc
        constructor
        · intro q hq
          rcases List.mem_cons.mp hq with rfl | hq'
          · refine ⟨by omega, by rw [List.length_cons]; omega, key0, items0, ?_, ?_⟩
            · rw [hpf, Nat.sub_self, List.getElem?_cons_zero]
            · rw [hpf]; exact hrc
          · obtain ⟨b1, b2, key', items', hidx, hrun⟩ := c1 q hq'
            refine ⟨by omega, by rw [List.length_cons]; omega, key', items', ?_, hrun⟩
            obtain ⟨k, hk⟩ : ∃ k, q.fieldIdx - f0 = k + 1 := ⟨q.fieldIdx - f0 - 1, by omega⟩
            rw [hk, List.getElem?_cons_succ, show k = q.fieldIdx - (f0 + 1) by omega]
            exact hidx
        · intro g key items hg
          cases g with
          | zero => exact Or.inl ⟨p, List.mem_cons_self p ps', by omega⟩
          | succ g' =>
            rw [List.getElem?_cons_succ] at hg
            rcases c2 g' key items hg with ⟨q, hq, hqf⟩ | hfin
            · exact Or.inl ⟨q, List.mem_cons_of_mem p hq, by omega⟩
            · exact Or.inr (by rw [show f0 + (g' + 1) = f0 + 1 + g' by omega]; exact hfin)
    | crashed =>
      simp only [initFields, hrc] at h
      exact absurd (congrArg Prod.snd h) (by simp)

lemma stateInv_init (et : String) (env : DepReq → Except String JSValue)
    (PathOk : String → String → Prop) (orig : Payload) (ps : List Pending)
    (Hpath : ∀ c', contentRel orig c' → ∀ k tid, typeTargetId c' = some tid →
      PathOk k (uploadPath et tid k))
    (hini : initFields et orig 0 orig = (ps, false)) :
    stateInv env PathOk orig ⟨orig, ps, ps⟩ := by
  obtain ⟨c1, c2⟩ := initFields_spec et orig orig 0 ps hini
  have hpw : ps.Pairwise (fun a b => a.fieldIdx < b.fieldIdx) := by
    have := (initFields_pairwise et orig orig 0).2
    rw [hini] at this
    exact this
  have huniq := pairwise_fieldIdx_unique hpw
  refine ⟨rfl, ?_, ?_, fun p hp => hp, ?_, ?_⟩
  · intro f key origItems hf
    by_cases hex : ∃ q ∈ ps, q.fieldIdx = f
    · obtain ⟨q, hq, hqf⟩ := hex
      obtain ⟨-, -, key', items', hidx, hrun⟩ := c1 q hq
      rw [hqf, Nat.sub_zero, hf] at hidx
      cases hidx
      rw [hqf] at hrun
      obtain ⟨j, it, d, hj, hpre, hdat, htru, hmk⟩ := runChainAux_issued origItems 0 q hrun
      obtain ⟨-, hqk, hqi, -, -⟩ := mkItemReq_spec hmk
      refine ⟨origItems, hf, rfl,
        Or.inr ⟨q, hq, fun q' hq' hq'f => huniq q' hq' q hq (by omega), ?_⟩⟩
      refine ⟨hqf, hqk, ?_, ?_, ?_, ?_⟩
      · have := getElem?_lt_length hj
        omega
      · intro i oi ci hi h1 h2
        have hdf : hasData oi = false := hpre i oi (by omega) h1
        refine ⟨fun _ => ?_, fun hD => absurd hD (by rw [hdf]; simp)⟩
        rw [h1] at h2
        exact (Option.some.inj h2).symm
      · intro i oi ci hi h1 h2
        rw [h1] at h2
        exact (Option.some.inj h2).symm
      · refine ⟨it, by rw [hqi, Nat.zero_add]; exact hj,
          by simp [hasData, hdat, htru],
          reqFor_of_mkItemReq Hpath (contentRel_refl orig) hdat htru hmk⟩
    · push_neg at hex
      rcases c2 f key origItems hf with ⟨q, hq, hqf⟩ | hfin
      · exact absurd (show q.fieldIdx = f by omega) (hex q hq)
      · refine ⟨origItems, hf, rfl, Or.inl ⟨hex, ?_⟩⟩
        intro i oi ci h1 h2
        have hdf : hasData oi = false :=
          runChainAux_finished origItems 0 (by simpa using hfin) i oi h1
        refine ⟨fun _ => ?_, fun hD => absurd hD (by rw [hdf]; simp)⟩
        rw [h1] at h2
        exact (Option.some.inj h2).symm
  · intro p hp
    have := (c1 p hp).2.1
    omega
  · intro q hq p hp h
    rw [huniq q hq p hp h]
  · exact hpw.imp (fun h heq => absurd heq (Nat.ne_of_lt h))

lemma setTid_setTid (it : RefItem) (t0 t : Option JSValue) :
    setTid (setTid it t0) t = setTid it t := rfl

lemma fieldDone_mono {env : DepReq → Except String JSValue} {PathOk : String → String → Prop}
    {tr tr' : List Pending} {f : Nat} {key : String} {oI cI : List RefItem}
    (hsub : ∀ q ∈ tr, q ∈ tr') (h : fieldDone env PathOk tr f key oI cI) :
    fieldDone env PathOk tr' f key oI cI :=
  fun i oi ci h1 h2 => itemResolved_mono hsub (h i oi ci h1 h2)

lemma fieldPend_mono {env : DepReq → Except String JSValue} {PathOk : String → String → Prop}
    {tr tr' : List Pending} {f : Nat} {key : String} {oI cI : List RefItem} {p : Pending}
    (hsub : ∀ q ∈ tr, q ∈ tr') (h : fieldPend env PathOk tr f key oI cI p) :
    fieldPend env PathOk tr' f key oI cI p := by
  obtain ⟨a1, a2, a3, a4, a5, a6⟩ := h
  exact ⟨a1, a2, a3, fun i oi ci hi h1 h2 => itemResolved_mono hsub (a4 i oi ci hi h1 h2), a5, a6⟩

lemma contentRel_setItemTid {orig cont : Payload} {f b : Nat} {tid : Option JSValue}
    {key0 : String} {origItems : List RefItem} {oi : RefItem}
    (hrel : contentRel orig cont)
    (hforig : orig[f]? = some (key0, origItems))
    (hoi : origItems[b]? = some oi) (hD : hasData oi = true) :
    contentRel orig (setItemTid cont f b tid) := by
  obtain ⟨hlen, hfields⟩ := hrel
  refine ⟨by rw [setItemTid_length]; exact hlen, fun g key items hg => ?_⟩
  by_cases hgf : g = f
  · subst hgf
    rw [hforig] at hg
    cases hg
    obtain ⟨curItems, hcur, hclen, hpt⟩ := hfields g key0 origItems hforig
    by_cases hbl : b < curItems.length
    · obtain ⟨cib, hcb⟩ : ∃ x, curItems[b]? = some x := ⟨_, List.getElem?_eq_getElem hbl⟩
      refine ⟨curItems.set b (setTid cib tid),
        setItemTid_get_self cont g b tid key0 curItems cib hcur hcb,
        by rw [List.length_set]; exact hclen, ?_⟩
      intro i oi' ci h1 h2
      by_cases hib : b = i
      · subst hib
        rw [List.getElem?_set_self hbl] at h2
        have hci : ci = setTid cib tid := (Option.some.inj h2).symm
        rw [hoi] at h1
        have hoieq : oi' = oi := (Option.some.inj h1).symm
        rw [hoieq]
        refine Or.inr ⟨hD, tid, ?_⟩
        rcases hpt b oi cib hoi hcb with hcib | ⟨-, t0, hcib⟩
        · rw [hci, hcib]
        · rw [hci, hcib, setTid_setTid]
      · rw [List.getElem?_set_ne hib] at h2
        exact hpt i oi' ci h1 h2
    · exfalso
      have h1 := getElem?_lt_length hoi
      omega
  · obtain ⟨curItems, hcur, hclen, hpt⟩ := hfields g key items hg
    exact ⟨curItems, by rw [setItemTid_get_ne cont f b tid g hgf]; exact hcur, hclen, hpt⟩

lemma completeStep_error (et : String) (env : DepReq → Except String JSValue) (s : SaveState)
    (choice : Nat) (h : ¬ s.pend.length = 0) (p : Pending)
    (hp : s.pend.get ⟨choice % s.pend.length, Nat.mod_lt _ (Nat.pos_of_ne_zero h)⟩ = p)
    (e : String) (henv : env p.req = .error e) :
    completeStep et env s choice = .failedStep e s := by
  unfold completeStep
  rw [dif_neg h]
  simp only [hp, henv]

lemma completeStep_noIdField (et : String) (env : DepReq → Except String JSValue)
    (s : SaveState) (choice : Nat) (h : ¬ s.pend.length = 0) (p : Pending)
    (hp : s.pend.get ⟨choice % s.pend.length, Nat.mod_lt _ (Nat.pos_of_ne_zero h)⟩ = p)
    (resp : JSValue) (henv : env p.req = .ok resp) (hfld : idFieldOfReq p.req = none) :
    completeStep et env s choice = .crashedStep s := by
  unfold completeStep
  rw [dif_neg h]
  simp only [hp, henv, hfld]

lemma completeStep_noExtract (et : String) (env : DepReq → Except String JSValue)
    (s : SaveState) (choice : Nat) (h : ¬ s.pend.length = 0) (p : Pending)
    (hp : s.pend.get ⟨choice % s.pend.length, Nat.mod_lt _ (Nat.pos_of_ne_zero h)⟩ = p)
    (resp : JSValue) (fld : String) (henv : env p.req = .ok resp)
    (hfld : idFieldOfReq p.req = some fld) (hext : extractId resp fld = none) :
    completeStep et env s choice = .crashedStep s := by
  unfold completeStep
  rw [dif_neg h]
  simp only [hp, henv, hfld, hext]

lemma completeStep_ok (et : String) (env : DepReq → Except String JSValue) (s : SaveState)
    (choice : Nat) (h : ¬ s.pend.length = 0) (p : Pending)
    (hp : s.pend.get ⟨choice % s.pend.length, Nat.mod_lt _ (Nat.pos_of_ne_zero h)⟩ = p)
    (resp : JSValue) (fld : String) (tid : Option JSValue) (key0 : String)
    (newItems : List RefItem)
    (henv : env p.req = .ok resp) (hfld : idFieldOfReq p.req = some fld)
    (hext : extractId resp fld = some tid)
    (hcontf : (setItemTid s.content p.fieldIdx p.itemIdx tid)[p.fieldIdx]? =
      some (key0, newItems)) :
    completeStep et env s choice =
      match runChainAux et (setItemTid s.content p.fieldIdx p.itemIdx tid) p.fieldIdx p.key
          (p.itemIdx + 1) (newItems.drop (p.itemIdx + 1)) with
      | .finished => .stepped ⟨setItemTid s.content p.fieldIdx p.itemIdx tid,
          s.pend.filter (fun q => q.fieldIdx ≠ p.fieldIdx), s.trace⟩
      | .issued p' => .stepped ⟨setItemTid s.content p.fieldIdx p.itemIdx tid,
          s.pend.filter (fun q => q.fieldIdx ≠ p.fieldIdx) ++ [p'], s.trace ++ [p']⟩
      | .crashed => .crashedStep ⟨setItemTid s.content p.fieldIdx p.itemIdx tid,
          s.pend.filter (fun q => q.fieldIdx ≠ p.fieldIdx), s.trace⟩ := by
  unfold completeStep
  rw [dif_neg h]
  simp only [hp, henv, hfld, hext, hcontf]

lemma completeStep_cases (et : String) (env : DepReq → Except String JSValue)
    (PathOk : String → String → Prop) (orig : Payload)
    (Hpath : ∀ c', contentRel orig c' → ∀ k tid, typeTargetId c' = some tid →
      PathOk k (uploadPath et tid k))
    (s : SaveState) (choice : Nat) (hinv : stateInv env PathOk orig s) :
    (∀ s', completeStep et env s choice = .stepped s' → stateInv env PathOk orig s') ∧
    (∀ e s', completeStep et env s choice = .failedStep e s' →
      s' = s ∧ ∃ p ∈ s.pend, env p.req = .error e) ∧
    (∀ s', completeStep et env s choice = .crashedStep s' → s'.trace = s.trace) := by
  by_cases hlen : s.pend.length = 0
  · have hstep : completeStep et env s choice = .stepped s := by
      unfold completeStep
      rw [dif_pos hlen]
    exact ⟨fun s' h => (by rw [hstep] at h; cases h; exact hinv),
      fun e s' h => (by rw [hstep] at h; cases h),
      fun s' h => (by rw [hstep] at h; cases h)⟩
  · obtain ⟨p, hp⟩ : ∃ p, s.pend.get ⟨choice % s.pend.length,
        Nat.mod_lt _ (Nat.pos_of_ne_zero hlen)⟩ = p := ⟨_, rfl⟩
    have hpmem : p ∈ s.pend := hp ▸ List.get_mem _ _ _
    cases henv : env p.req with
    | error e =>
      have hstep := completeStep_error et env s choice hlen p hp e henv
      exact ⟨fun s' h => (by rw [hstep] at h; cases h),
        fun e' s' h => by
          rw [hstep] at h
          cases h
          exact ⟨rfl, p, hpmem, henv⟩,
        fun s' h => (by rw [hstep] at h; cases h)⟩
    | ok resp =>
      cases hfld : idFieldOfReq p.req with
      | none =>
        have hstep := completeStep_noIdField et env s choice hlen p hp resp henv hfld
        exact ⟨fun s' h => (by rw [hstep] at h; cases h),
          fun e' s' h => (by rw [hstep] at h; cases h),
          fun s' h => (by rw [hstep] at h; cases h; rfl)⟩
      | some fld =>
        cases hext : extractId resp fld with
        | none =>
          have hstep := completeStep_noExtract et env s choice hlen p hp resp fld henv hfld hext
          exact ⟨fun s' h => (by rw [hstep] at h; cases h),
            fun e' s' h => (by rw [hstep] at h; cases h),
            fun s' h => (by rw [hstep] at h; cases h; rfl)⟩
        | some tid =>
          have hrel0 := stateInv_contentRel hinv
          obtain ⟨hlen0, hfields, hbound, hsubt, hT1, hT2⟩ := hinv
          have hflt : p.fieldIdx < orig.length := hbound p hpmem
          obtain ⟨kv0, hforig⟩ : ∃ kv, orig[p.fieldIdx]? = some kv :=
            ⟨_, List.getElem?_eq_getElem hflt⟩
          obtain ⟨key0, origItems⟩ := kv0
          obtain ⟨curItems, hcur, hclen, hdisj⟩ := hfields p.fieldIdx key0 origItems hforig
          rcases hdisj with ⟨hnone, -⟩ | ⟨pfx, hpfxmem, hpfxuni, hfp⟩
          · exact absurd rfl (hnone p hpmem)
          have hppfx : p = pfx := hpfxuni p hpmem rfl
          rw [← hppfx] at hfp
          obtain ⟨-, hpkey, hblt, hres, hun, oi, hoi, hD, hreqf⟩ := hfp
          have hcblt : p.itemIdx < curItems.length := by omega
          obtain ⟨cib, hcb⟩ : ∃ x, curItems[p.itemIdx]? = some x :=
            ⟨_, List.getElem?_eq_getElem hcblt⟩
          have hcib : cib = oi := hun p.itemIdx oi cib le_rfl hoi hcb
          rw [hcib] at hcb
          have hcontf : (setItemTid s.content p.fieldIdx p.itemIdx tid)[p.fieldIdx]? =
              some (key0, curItems.set p.itemIdx (setTid oi tid)) :=
            setItemTid_get_self _ _ _ _ _ _ _ hcur hcb
          set newItems := curItems.set p.itemIdx (setTid oi tid) with hnew
          have hnlen : newItems.length = origItems.length := by
            rw [hnew, List.length_set]; exact hclen
          have hrel' : contentRel orig (setItemTid s.content p.fieldIdx p.itemIdx tid) :=
            contentRel_setItemTid hrel0 hforig hoi hD
          have hnew_at : newItems[p.itemIdx]? = some (setTid oi tid) := by
            rw [hnew]; exact List.getElem?_set_self hcblt
          have hnew_ne : ∀ i, ¬ p.itemIdx = i → newItems[i]? = curItems[i]? := fun i hne => by
            rw [hnew]; exact List.getElem?_set_ne hne
          have hcur_orig : ∀ k, p.itemIdx ≤ k → curItems[k]? = origItems[k]? :=
            untouched_getElem? hclen p.itemIdx hun
          have hnew_orig : ∀ k, p.itemIdx + 1 ≤ k → newItems[k]? = origItems[k]? :=
            fun k hk => by rw [hnew_ne k (by omega), hcur_orig k (by omega)]
          have hothers : ∀ q, q ∈ s.pend.filter (fun q => q.fieldIdx ≠ p.fieldIdx) ↔
              (q ∈ s.pend ∧ ¬ q.fieldIdx = p.fieldIdx) := fun q => by
            simp [List.mem_filter]
          have hstep := completeStep_ok et env s choice hlen p hp resp fld tid key0 newItems
            henv hfld hext hcontf
          cases hrc : runChainAux et (setItemTid s.content p.fieldIdx p.itemIdx tid)
              p.fieldIdx p.key (p.itemIdx + 1) (newItems.drop (p.itemIdx + 1)) with
          | crashed =>
            have hstep2 : completeStep et env s choice = .crashedStep
                ⟨setItemTid s.content p.fieldIdx p.itemIdx tid,
                 s.pend.filter (fun q => q.fieldIdx ≠ p.fieldIdx), s.trace⟩ := by
              rw [hstep, hrc]
            exact ⟨fun s' h => (by rw [hstep2] at h; cases h),
              fun e' s' h => (by rw [hstep2] at h; cases h),
              fun s' h => (by rw [hstep2] at h; cases h; rfl)⟩
          | finished =>
            have hstep2 : completeStep et env s choice = .stepped
                ⟨setItemTid s.content p.fieldIdx p.itemIdx tid,
                 s.pend.filter (fun q => q.fieldIdx ≠ p.fieldIdx), s.trace⟩ := by
              rw [hstep, hrc]
            refine ⟨fun s' h => ?_, fun e' s' h => (by rw [hstep2] at h; cases h),
              fun s' h => (by rw [hstep2] at h; cases h)⟩
            rw [hstep2] at h
            cases h
            have hchain := runChainAux_finished (newItems.drop (p.itemIdx + 1))
              (p.itemIdx + 1) hrc
            refine ⟨?_, ?_, ?_, ?_, ?_, ?_⟩
            · show (setItemTid s.content p.fieldIdx p.itemIdx tid).length = orig.length
              rw [setItemTid_length]; exact hlen0
            · intro g key items hg
              by_cases hgf : g = p.fieldIdx
              · subst hgf
                rw [hforig] at hg
                cases hg
                refine ⟨newItems, hcontf, hnlen, Or.inl ⟨?_, ?_⟩⟩
                · intro q hq
                  exact ((hothers q).mp hq).2
                · intro i oi' ci h1 h2
                  rcases Nat.lt_trichotomy i p.itemIdx with hi | hi | hi
                  · have h2' : curItems[i]? = some ci := by
                      rw [← hnew_ne i (by omega)]; exact h2
                    exact hres i oi' ci hi h1 h2'
                  · subst hi
                    rw [hoi] at h1
                    have hoe : oi' = oi := (Option.some.inj h1).symm
                    rw [hnew_at] at h2
                    have hci : ci = setTid oi tid := (Option.some.inj h2).symm
                    rw [hoe]
                    exact ⟨fun hf => absurd (hD.symm.trans hf) (by decide),
                      fun _ => ⟨p.req, resp, fld, tid, hreqf,
                        ⟨p, hsubt p hpmem, rfl, rfl, rfl⟩, henv, hfld, hext, hci⟩⟩
                  · obtain ⟨j, hj⟩ : ∃ j, i = p.itemIdx + 1 + j := ⟨i - (p.itemIdx + 1), by omega⟩
                    have hrest : (newItems.drop (p.itemIdx + 1))[j]? = some oi' := by
                      rw [List.getElem?_drop, ← hj, hnew_orig i (by omega), h1]
                    have hdf := hchain j oi' hrest
                    have h2' : ci = oi' := by
                      rw [hnew_orig i (by omega), h1] at h2
                      exact (Option.some.inj h2).symm
                    exact ⟨fun _ => h2', fun hT => absurd (hdf.symm.trans hT) (by decide)⟩
              · obtain ⟨cur2, hcur2, hclen2, hdisj2⟩ := hfields g key items hg
                refine ⟨cur2, by rw [setItemTid_get_ne _ _ _ _ _ hgf]; exact hcur2, hclen2, ?_⟩
                rcases hdisj2 with ⟨hn2, hdone2⟩ | ⟨q2, hq2mem, hq2uni, hfp2⟩
                · exact Or.inl ⟨fun q hq => hn2 q ((hothers q).mp hq).1, hdone2⟩
                · refine Or.inr ⟨q2, ?_, ?_, hfp2⟩
                  · refine (hothers q2).mpr ⟨hq2mem, ?_⟩
                    obtain ⟨hq2f, -⟩ := hfp2
                    omega
                  · intro q hq hqf
                    exact hq2uni q ((hothers q).mp hq).1 hqf
            · intro q hq
              exact hbound q ((hothers q).mp hq).1
            · intro q hq
              exact hsubt q ((hothers q).mp hq).1
            · intro q hq q2 hq2 hf
              exact hT1 q hq q2 ((hothers q2).mp hq2).1 hf
            · exact hT2
          | issued p' =>
            obtain ⟨j, it, d, hjit, hpre2, hdat2, htru2, hmk2⟩ :=
              runChainAux_issued (newItems.drop (p.itemIdx + 1)) (p.itemIdx + 1) p' hrc
            obtain ⟨hp'f, hp'k, hp'i, -, -⟩ := mkItemReq_spec hmk2
            have hreq' : reqFor PathOk p.key it p'.req :=
              reqFor_of_mkItemReq Hpath hrel' hdat2 htru2 hmk2
            have horigit : origItems[p.itemIdx + 1 + j]? = some it := by
              rw [← hnew_orig _ (by omega), ← List.getElem?_drop]; exact hjit
            have hDit : hasData it = true := by simp [hasData, hdat2, htru2]
            have hp'lt : p'.itemIdx < origItems.length := by
              have := getElem?_lt_length horigit
              omega
            have hsub' : ∀ q ∈ s.trace, q ∈ s.trace ++ [p'] :=
              fun q hq => List.mem_append_left _ hq
            have hp'mem : p' ∈ s.trace ++ [p'] := List.mem_append_right _ (by simp)
            have hstep2 : completeStep et env s choice = .stepped
                ⟨setItemTid s.content p.fieldIdx p.itemIdx tid,
                 s.pend.filter (fun q => q.fieldIdx ≠ p.fieldIdx) ++ [p'], s.trace ++ [p']⟩ := by
              rw [hstep, hrc]
            refine ⟨fun s' h => ?_, fun e' s' h => (by rw [hstep2] at h; cases h),
              fun s' h => (by rw [hstep2] at h; cases h)⟩
            rw [hstep2] at h
            cases h
            refine ⟨?_, ?_, ?_, ?_, ?_, ?_⟩
            · show (setItemTid s.content p.fieldIdx p.itemIdx tid).length = orig.length
              rw [setItemTid_length]; exact hlen0
            · intro g key items hg
              by_cases hgf : g = p.fieldIdx
              · subst hgf
                rw [hforig] at hg
                cases hg
                refine ⟨newItems, hcontf, hnlen,
                  Or.inr ⟨p', List.mem_append_right _ (by simp), ?_, ?_⟩⟩
                · intro q hq hqf
                  rcases List.mem_append.mp hq with hq' | hq'
                  · exact absurd hqf ((hothers q).mp hq').2
                  · simpa using hq'
                · refine ⟨hp'f, hp'k.trans hpkey, hp'lt, ?_, ?_, ?_⟩
                  · intro i oi' ci hi h1 h2
                    rcases Nat.lt_trichotomy i p.itemIdx with hlt | heq | hgt
                    · have h2' : curItems[i]? = some ci := by
                        rw [← hnew_ne i (by omega)]; exact h2
                      exact itemResolved_mono hsub' (hres i oi' ci hlt h1 h2')
                    · subst heq
                      rw [hoi] at h1
                      have hoe : oi' = oi := (Option.some.inj h1).symm
                      rw [hnew_at] at h2
                      have hci : ci = setTid oi tid := (Option.some.inj h2).symm
                      rw [hoe]
                      exact ⟨fun hf => absurd (hD.symm.trans hf) (by decide),
                        fun _ => ⟨p.req, resp, fld, tid, hreqf,
                          ⟨p, hsub' p (hsubt p hpmem), rfl, rfl, rfl⟩, henv, hfld, hext, hci⟩⟩
                    · obtain ⟨j', hj'⟩ : ∃ j', i = p.itemIdx + 1 + j' :=
                        ⟨i - (p.itemIdx + 1), by omega⟩
                      have hj'j : j' < j := by omega
                      have hrest : (newItems.drop (p.itemIdx + 1))[j']? = some oi' := by
                        rw [List.getElem?_drop, ← hj', hnew_orig i (by omega), h1]
                      have hdf := hpre2 j' oi' hj'j hrest
                      have h2' : ci = oi' := by
                        rw [hnew_orig i (by omega), h1] at h2
                        exact (Option.some.inj h2).symm
                      exact ⟨fun _ => h2', fun hT => absurd (hdf.symm.trans hT) (by decide)⟩
                  · intro i oi' ci hi h1 h2
                    rw [hnew_orig i (by omega), h1] at h2
                    exact (Option.some.inj h2).symm
                  · refine ⟨it, by rw [hp'i]; exact horigit, hDit, ?_⟩
                    rw [hpkey] at hreq'
                    exact hreq'
              · obtain ⟨cur2, hcur2, hclen2, hdisj2⟩ := hfields g key items hg
                refine ⟨cur2, by rw [setItemTid_get_ne _ _ _ _ _ hgf]; exact hcur2, hclen2, ?_⟩
                rcases hdisj2 with ⟨hn2, hdone2⟩ | ⟨q2, hq2mem, hq2uni, hfp2⟩
                · refine Or.inl ⟨?_, fieldDone_mono hsub' hdone2⟩
                  intro q hq
                  rcases List.mem_append.mp hq with hq' | hq'
                  · exact hn2 q ((hothers q).mp hq').1
                  · have hqp : q = p' := by simpa using hq'
                    rw [hqp, hp'f]
                    omega
                · refine Or.inr ⟨q2, ?_, ?_, fieldPend_mono hsub' hfp2⟩
                  · refine List.mem_append_left _ ((hothers q2).mpr ⟨hq2mem, ?_⟩)
                    obtain ⟨hq2f, -⟩ := hfp2
                    omega
                  · intro q hq hqf
                    rcases List.mem_append.mp hq with hq' | hq'
                    · exact hq2uni q ((hothers q).mp hq').1 hqf
                    · exfalso
                      have hqp : q = p' := by simpa using hq'
                      rw [hqp, hp'f] at hqf
                      omega
            · intro q hq
              rcases List.mem_append.mp hq with hq' | hq'
              · exact hbound q ((hothers q).mp hq').1
              · have hqp : q = p' := by simpa using hq'
                rw [hqp, hp'f]
                exact hflt
            · intro q hq
              rcases List.mem_append.mp hq with hq' | hq'
              · exact hsub' q (hsubt q ((hothers q).mp hq').1)
              · rw [show q = p' by simpa using hq']
                exact hp'mem
            · intro q hq q2 hq2 hf
              rcases List.mem_append.mp hq with hqt | hqt
              · rcases List.mem_append.mp hq2 with hq2t | hq2t
                · exact hT1 q hqt q2 ((hothers q2).mp hq2t).1 hf
                · have hq2p : q2 = p' := by simpa using hq2t
                  have hqf : q.fieldIdx = p.fieldIdx := by rw [hq2p, hp'f] at hf; exact hf
                  have := hT1 q hqt p hpmem hqf
                  rw [hq2p, hp'i]
                  omega
              · have hqp : q = p' := by simpa using hqt
                rcases List.mem_append.mp hq2 with hq2t | hq2t
                · exfalso
                  have hne := ((hothers q2).mp hq2t).2
                  rw [hqp, hp'f] at hf
                  omega
                · have hq2p : q2 = p' := by simpa using hq2t
                  rw [hqp, hq2p]
            · rw [List.pairwise_append]
              refine ⟨hT2, by simp, ?_⟩
              intro a ha b hb
              have hbp : b = p' := by simpa using hb
              intro hfeq
              have haf : a.fieldIdx = p.fieldIdx := by rw [hbp, hp'f] at hfeq; exact hfeq
              have := hT1 a ha p hpmem haf
              rw [hbp, hp'i]
              omega

lemma finishSave_spec (baseUrl et : String) (id : Option JSValue)
    (parentEnv : ParentWrite → String × Option JSValue) (s : SaveState) (cfg : EntityDef)
    (hcfg : entityConfiguration et = some cfg) :
    ∃ pw, finishSave baseUrl et id parentEnv s =
        .ok s.trace pw (processJSONResult (parentEnv pw).1 (parentEnv pw).2) ∧
      pw.body = s.content ∧
      pw.method = (if idTruthy id then "PATCH" else "POST") ∧
      pw.url = baseUrl ++ "/" ++
        (if idTruthy id then
          replaceFirst cfg.entityHandle "%" ((id.map jsToString).getD "undefined")
         else cfg.createHandle.getD "undefined") ++ "?_format=json" := by
  refine ⟨⟨if idTruthy id then "PATCH" else "POST",
    baseUrl ++ "/" ++
      (if idTruthy id then
        replaceFirst cfg.entityHandle "%" ((id.map jsToString).getD "undefined")
       else cfg.createHandle.getD "undefined") ++ "?_format=json", s.content⟩, ?_, rfl, rfl, rfl⟩
  unfold finishSave
  rw [hcfg]

lemma runLoop_cases (baseUrl et : String) (id : Option JSValue)
    (env : DepReq → Except String JSValue) (parentEnv : ParentWrite → String × Option JSValue)
    (PathOk : String → String → Prop) (orig : Payload)
    (Hpath : ∀ c', contentRel orig c' → ∀ k tid, typeTargetId c' = some tid →
      PathOk k (uploadPath et tid k)) :
    ∀ (sched : List Nat) (s : SaveState), stateInv env PathOk orig s →
      (∀ tr pw res, runLoop baseUrl et id env parentEnv s sched = .ok tr pw res →
        ∃ s' cfg, stateInv env PathOk orig s' ∧ s'.pend = [] ∧ tr = s'.trace ∧
          entityConfiguration et = some cfg ∧ pw.body = s'.content ∧
          pw.method = (if idTruthy id then "PATCH" else "POST") ∧
          pw.url = baseUrl ++ "/" ++
            (if idTruthy id then
              replaceFirst cfg.entityHandle "%" ((id.map jsToString).getD "undefined")
             else cfg.createHandle.getD "undefined") ++ "?_format=json" ∧
          res = processJSONResult (parentEnv pw).1 (parentEnv pw).2) ∧
      (∀ tr e cont, runLoop baseUrl et id env parentEnv s sched = .failedOut tr e cont →
        ∃ s', stateInv env PathOk orig s' ∧ tr = s'.trace ∧ cont = s'.content ∧
          ∃ p ∈ s'.pend, env p.req = .error e) ∧
      (∀ tr, runLoop baseUrl et id env parentEnv s sched = .crashedOut tr →
        ∃ s', stateInv env PathOk orig s' ∧ tr = s'.trace) ∧
      (∀ tr pend', runLoop baseUrl et id env parentEnv s sched = .incomplete tr pend' →
        ∃ s', stateInv env PathOk orig s' ∧ tr = s'.trace ∧ pend' = s'.pend) := by
  intro sched
  induction sched with
  | nil =>
    intro s hinv
    by_cases hpe : s.pend.isEmpty = true
    · have hrl : runLoop baseUrl et id env parentEnv s [] =
          finishSave baseUrl et id parentEnv s := by
        unfold runLoop
        rw [if_pos hpe]
      cases hcfg : entityConfiguration et with
      | none =>
        have hfin : finishSave baseUrl et id parentEnv s = .crashedOut s.trace := by
          unfold finishSave
          rw [hcfg]
        rw [hfin] at hrl
        exact ⟨fun tr pw res h => (by rw [hrl] at h; cases h),
          fun tr e cont h => (by rw [hrl] at h; cases h),
          fun tr h => (by rw [hrl] at h; cases h; exact ⟨s, hinv, rfl⟩),
          fun tr pend' h => (by rw [hrl] at h; cases h)⟩
      | some cfg =>
        obtain ⟨pw0, hfin, hb, hm, hu⟩ := finishSave_spec baseUrl et id parentEnv s cfg hcfg
        rw [hfin] at hrl
        exact ⟨fun tr pw res h => (by
            rw [hrl] at h
            cases h
            exact ⟨s, cfg, hinv, List.isEmpty_iff.mp hpe, rfl, rfl, hb, hm, hu, rfl⟩),
          fun tr e cont h => (by rw [hrl] at h; cases h),
          fun tr h => (by rw [hrl] at h; cases h),
          fun tr pend' h => (by rw [hrl] at h; cases h)⟩
    · have hrl : runLoop baseUrl et id env parentEnv s [] = .incomplete s.trace s.pend := by
        unfold runLoop
        rw [if_neg hpe]
      exact ⟨fun tr pw res h => (by rw [hrl] at h; cases h),
        fun tr e cont h => (by rw [hrl] at h; cases h),
        fun tr h => (by rw [hrl] at h; cases h),
        fun tr pend' h => (by rw [hrl] at h; cases h; exact ⟨s, hinv, rfl, rfl⟩)⟩
  | cons cstep rest ih =>
    intro s hinv
    by_cases hpe : s.pend.isEmpty = true
    · have hrl : runLoop baseUrl et id env parentEnv s (cstep :: rest) =
          finishSave baseUrl et id parentEnv s := by
        unfold runLoop
        rw [if_pos hpe]
      cases hcfg : entityConfiguration et with
      | none =>
        have hfin : finishSave baseUrl et id parentEnv s = .crashedOut s.trace := by
          unfold finishSave
          rw [hcfg]
        rw [hfin] at hrl
        exact ⟨fun tr pw res h => (by rw [hrl] at h; cases h),
          fun tr e cont h => (by rw [hrl] at h; cases h),
          fun tr h => (by rw [hrl] at h; cases h; exact ⟨s, hinv, rfl⟩),
          fun tr pend' h => (by rw [hrl] at h; cases h)⟩
      | some cfg =>
        obtain ⟨pw0, hfin, hb, hm, hu⟩ := finishSave_spec baseUrl et id parentEnv s cfg hcfg
        rw [hfin] at hrl
        exact ⟨fun tr pw res h => (by
            rw [hrl] at h
            cases h
            exact ⟨s, cfg, hinv, List.isEmpty_iff.mp hpe, rfl, rfl, hb, hm, hu, rfl⟩),
          fun tr e cont h => (by rw [hrl] at h; cases h),
          fun tr h => (by rw [hrl] at h; cases h),
          fun tr pend' h => (by rw [hrl] at h; cases h)⟩
    · obtain ⟨hstepc, hfailc, hcrashc⟩ := completeStep_cases et env PathOk orig Hpath s cstep hinv
      cases hcs : completeStep et env s cstep with
      | stepped s1 =>
        have hinv' := hstepc s1 hcs
        have heq : runLoop baseUrl et id env parentEnv s (cstep :: rest) =
            runLoop baseUrl et id env parentEnv s1 rest := by
          conv_lhs => unfold runLoop
          rw [if_neg hpe, hcs]
        obtain ⟨ihok, ihfail, ihcrash, ihinc⟩ := ih s1 hinv'
        exact ⟨fun tr pw res h => ihok tr pw res (by rw [← heq]; exact h),
          fun tr e cont h => ihfail tr e cont (by rw [← heq]; exact h),
          fun tr h => ihcrash tr (by rw [← heq]; exact h),
          fun tr pend' h => ihinc tr pend' (by rw [← heq]; exact h)⟩
      | failedStep e s1 =>
        obtain ⟨hseq, hex⟩ := hfailc e s1 hcs
        have heq : runLoop baseUrl et id env parentEnv s (cstep :: rest) =
            .failedOut s1.trace e s1.content := by
          unfold runLoop
          rw [if_neg hpe, hcs]
        rw [hseq] at heq
        exact ⟨fun tr pw res h => (by rw [heq] at h; cases h),
          fun tr e' cont h => (by
            rw [heq] at h
            cases h
            exact ⟨s, hinv, rfl, rfl, hex⟩),
          fun tr h => (by rw [heq] at h; cases h),
          fun tr pend' h => (by rw [heq] at h; cases h)⟩
      | crashedStep s1 =>
        have htr := hcrashc s1 hcs
        have heq : runLoop baseUrl et id env parentEnv s (cstep :: rest) =
            .crashedOut s1.trace := by
          unfold runLoop
          rw [if_neg hpe, hcs]
        exact ⟨fun tr pw res h => (by rw [heq] at h; cases h),
          fun tr e' cont h => (by rw [heq] at h; cases h),
          fun tr h => (by rw [heq] at h; cases h; exact ⟨s, hinv, htr⟩),
          fun tr pend' h => (by rw [heq] at h; cases h)⟩

lemma runChainAux_finished_of_noData (et : String) (cont : Payload) (f : Nat) (key : String) :
    ∀ (items : List RefItem) (i : Nat), (∀ it ∈ items, hasData it = false) →
      runChainAux et cont f key i items = .finished := by
  intro items
  induction items with
  | nil => intro i _; rfl
  | cons x xs ih =>
    intro i h
    have hx : hasData x = false := h x (List.mem_cons_self x xs)
    cases hd : x.data with
    | none =>
      simp only [runChainAux, hd]
      exact ih (i + 1) (fun it hit => h it (List.mem_cons_of_mem _ hit))
    | some d =>
      have ht : jsTruthy d = false := by
        unfold hasData at hx
        rw [hd] at hx
        exact hx
      simp only [runChainAux, hd, ht]
      rw [if_neg (by simp)]
      exact ih (i + 1) (fun it hit => h it (List.mem_cons_of_mem _ hit))

lemma initFields_noData (et : String) (cont : Payload) :
    ∀ (flds : List (String × List RefItem)) (f0 : Nat),
      (∀ kv ∈ flds, ∀ it ∈ kv.2, hasData it = false) →
      initFields et cont f0 flds = ([], false) := by
  intro flds
  induction flds with
  | nil => intro f0 _; rfl
  | cons kv rest ih =>
    obtain ⟨key, items⟩ := kv
    intro f0 h
    have hfin : runChainAux et cont f0 key 0 items = .finished :=
      runChainAux_finished_of_noData et cont f0 key items 0
        (fun it hit => h (key, items) (List.mem_cons_self _ _) it hit)
    simp only [initFields, hfin]
    exact ih (f0 + 1) (fun kv' hkv' => h kv' (List.mem_cons_of_mem _ hkv'))

lemma runLoop_noPend (baseUrl et : String) (id : Option JSValue)
    (env : DepReq → Except String JSValue) (parentEnv : ParentWrite → String × Option JSValue)
    (s : SaveState) (hpe : s.pend = []) (sched : List Nat) :
    runLoop baseUrl et id env parentEnv s sched = finishSave baseUrl et id parentEnv s := by
  cases sched with
  | nil =>
    unfold runLoop
    rw [if_pos (by rw [hpe]; rfl)]
  | cons cstep rest =>
    unfold runLoop
    rw [if_pos (by rw [hpe]; rfl)]

lemma lookupField_rel :
    ∀ (orig cont : Payload), contentRel orig cont → ∀ (key : String) (origItems : List RefItem),
      lookupField orig key = some origItems →
      ∃ curItems, lookupField cont key = some curItems ∧
        curItems.length = origItems.length ∧
        ∀ (i : Nat) (oi ci : RefItem), origItems[i]? = some oi → curItems[i]? = some ci →
          (ci = oi ∨ (hasData oi = true ∧ ∃ tid, ci = setTid oi tid)) := by
  intro orig
  induction orig with
  | nil =>
    intro cont hrel key origItems hlk
    simp [lookupField] at hlk
  | cons kv0 rest ih =>
    intro cont hrel key origItems hlk
    obtain ⟨key0, items0⟩ := kv0
    obtain ⟨hlen, hfields⟩ := hrel
    cases cont with
    | nil => simp at hlen
    | cons ckv ctail =>
      obtain ⟨cur0, hc0, hc0len, hc0pt⟩ :=
        hfields 0 key0 items0 (by rw [List.getElem?_cons_zero])
      rw [List.getElem?_cons_zero] at hc0
      have hckv : ckv = (key0, cur0) := Option.some.inj hc0
      subst hckv
      by_cases hk : (key0 == key) = true
      · have hlk0 : lookupField ((key0, items0) :: rest) key = some items0 := by
          simp [lookupField, List.find?_cons, hk]
        rw [hlk0] at hlk
        have hoi : origItems = items0 := (Option.some.inj hlk).symm
        subst hoi
        refine ⟨cur0, ?_, hc0len, hc0pt⟩
        simp [lookupField, List.find?_cons, hk]
      · have hkf : (key0 == key) = false := by
          cases hb : (key0 == key)
          · rfl
          · exact absurd hb hk
        have hlkrest : lookupField rest key = some origItems := by
          unfold lookupField at hlk
          rw [List.find?_cons] at hlk
          rw [hkf] at hlk
          exact hlk
        have hrelrest : contentRel rest ctail := by
          constructor
          · simpa using hlen
          · intro fidx key' items' hf'
            obtain ⟨cur', hcur', hlen', hpt'⟩ :=
              hfields (fidx + 1) key' items' (by rw [List.getElem?_cons_succ]; exact hf')
            rw [List.getElem?_cons_succ] at hcur'
            exact ⟨cur', hcur', hlen', hpt'⟩
        obtain ⟨curItems, hfound, hl, hp⟩ := ih ctail hrelrest key origItems hlkrest
        refine ⟨curItems, ?_, hl, hp⟩
        unfold lookupField at hfound ⊢
        rw [List.find?_cons, hkf]
        exact hfound

lemma typeTargetId_stable {orig cont : Payload} (hrel : contentRel orig cont)
    {t0 : RefItem} {tItems : List RefItem}
    (htype : lookupField orig "type" = some (t0 :: tItems))
    (ht0 : hasData t0 = false) :
    typeTargetId cont = some t0.target_id := by
  obtain ⟨curItems, hfound, hlen, hpt⟩ := lookupField_rel orig cont hrel "type" _ htype
  cases curItems with
  | nil => simp at hlen
  | cons c0 ctail =>
    rcases hpt 0 t0 c0 (by rw [List.getElem?_cons_zero]) (by rw [List.getElem?_cons_zero]) with
      hc | ⟨hTd, -⟩
    · simp [typeTargetId, hfound, hc]
    · rw [ht0] at hTd
      cases hTd

/-- C7: for a payload none of whose items carries (truthy) inline data, the
walk issues no dependency requests and entitySave performs exactly one write —
PATCH to the entityHandle with the id substituted when an id is supplied
(entity ids are positive), otherwise POST to the createHandle — whose body is
the unmodified payload, and the caller's callback receives that single
request's decoded body unchanged. -/
theorem entitySave_no_inline_deps
    (baseUrl entityType : String) (id : Option JSValue) (orig : Payload)
    (env : DepReq → Except String JSValue) (parentEnv : ParentWrite → String × Option JSValue)
    (sched : List Nat) (cfg : EntityDef)
    (hcfg : entityConfiguration entityType = some cfg)
    (hnd : ∀ kv ∈ orig, ∀ it ∈ kv.2, hasData it = false)
    (hid : id = none ∨ ∃ m : Int, 0 < m ∧ id = some (.num m)) :
    ∃ pw : ParentWrite,
      entitySave baseUrl entityType id orig env parentEnv sched =
        .ok [] pw (processJSONResult (parentEnv pw).1 (parentEnv pw).2) ∧
      pw.body = orig ∧
      ((id = none ∧ pw.method = "POST" ∧
        pw.url = baseUrl ++ "/" ++ cfg.createHandle.getD "undefined" ++ "?_format=json") ∨
       (∃ m : Int, 0 < m ∧ id = some (.num m) ∧ pw.method = "PATCH" ∧
        pw.url = baseUrl ++ "/" ++ replaceFirst cfg.entityHandle "%" (jsToString (.num m)) ++
          "?_format=json")) := by
  have hini := initFields_noData entityType orig orig 0 hnd
  have hes : entitySave baseUrl entityType id orig env parentEnv sched =
      runLoop baseUrl entityType id env parentEnv ⟨orig, [], []⟩ sched := by
    unfold entitySave
    rw [hini]
    rfl
  rw [runLoop_noPend baseUrl entityType id env parentEnv _ rfl sched] at hes
  obtain ⟨pw0, hfin, hb, hm, hu⟩ :=
    finishSave_spec baseUrl entityType id parentEnv ⟨orig, [], []⟩ cfg hcfg
  rw [hfin] at hes
  refine ⟨pw0, hes, hb, ?_⟩
  rcases hid with rfl | ⟨m, hm0, rfl⟩
  · left
    refine ⟨rfl, ?_, ?_⟩
    · rw [hm]
      rfl
    · rw [hu]
      rfl
  · right
    have htr : idTruthy (some (.num m)) = true := by
      simp [idTruthy, jsTruthy]
      omega
    refine ⟨m, hm0, rfl, ?_, ?_⟩
    · rw [hm, htr]
      rfl
    · rw [hu, htr]
      rfl

theorem entitySave_no_inline_deps_witness :
    ∃ pw : ParentWrite,
      entitySave "https://example.org" "node" (some (.num 4))
          [("title", [⟨none, none, none⟩])]
          (fun _ => .error "boom") (fun _ => ("\x7b\x7d", some (.obj []))) [] =
        .ok [] pw
          (processJSONResult ((fun (_ : ParentWrite) => ("\x7b\x7d",
            some (JSValue.obj []))) pw).1
            ((fun (_ : ParentWrite) => ("\x7b\x7d", some (JSValue.obj []))) pw).2) ∧
      pw.body = [("title", [⟨none, none, none⟩])] ∧
      ((some (JSValue.num 4) = none ∧ pw.method = "POST" ∧
        pw.url = "https://example.org" ++ "/" ++
          (EntityDef.mk "node/%" (some "node") "nid").createHandle.getD "undefined" ++
          "?_format=json") ∨
       (∃ m : Int, 0 < m ∧ some (JSValue.num 4) = some (.num m) ∧ pw.method = "PATCH" ∧
        pw.url = "https://example.org" ++ "/" ++
          replaceFirst (EntityDef.mk "node/%" (some "node") "nid").entityHandle "%"
            (jsToString (.num m)) ++ "?_format=json")) :=
  entitySave_no_inline_deps "https://example.org" "node" (some (.num 4))
    [("title", [⟨none, none, none⟩])] (fun _ => .error "boom")
    (fun _ => ("\x7b\x7d", some (.obj []))) [] ⟨"node/%", some "node", "nid"⟩ rfl
    (by decide) (Or.inr ⟨4, by omega, rfl⟩)

/-- C1: in every successful entitySave run (any payload, any completion
schedule), each item carrying truthy inline data whose target_type is a
registered normal entity type has a recursive-save request (with exactly that
inline data and the item's original target_id) among the dependency requests
issued before the parent write, and the parent write's body carries that item
rewritten so its target_id is the value the recursive save's response reports
under the child type's declared identifier field. -/
theorem entitySave_resolves_inline_children
    (baseUrl entityType : String) (id : Option JSValue) (orig : Payload)
    (env : DepReq → Except String JSValue) (parentEnv : ParentWrite → String × Option JSValue)
    (sched : List Nat) (tr : List Pending) (pw : ParentWrite) (res : DecodeOutcome)
    (f i : Nat) (key : String) (origItems : List RefItem) (oi : RefItem) (d : JSValue)
    (tt : String) (ccfg : EntityDef)
    (hrun : entitySave baseUrl entityType id orig env parentEnv sched = .ok tr pw res)
    (hf : orig[f]? = some (key, origItems))
    (hi : origItems[i]? = some oi)
    (hd : oi.data = some d) (hdt : jsTruthy d = true)
    (htt : oi.target_type = some tt) (hsent : ¬ tt = "fileUpload")
    (hcfg : entityConfiguration tt = some ccfg) :
    ∃ resp tid,
      env (.childSave (some tt) oi.target_id d) = .ok resp ∧
      extractId resp ccfg.idField = some tid ∧
      (∃ q ∈ tr, q.fieldIdx = f ∧ q.itemIdx = i ∧
        q.req = .childSave (some tt) oi.target_id d) ∧
      ∃ curItems, pw.body[f]? = some (key, curItems) ∧
        curItems[i]? = some (setTid oi tid) := by
  cases hini : initFields entityType orig 0 orig with
  | mk ps crashed =>
    cases crashed with
    | true =>
      exfalso
      have hcr : entitySave baseUrl entityType id orig env parentEnv sched =
          .crashedOut ps := by
        unfold entitySave
        rw [hini]
        rfl
      rw [hcr] at hrun
      cases hrun
    | false =>
      have hes : entitySave baseUrl entityType id orig env parentEnv sched =
          runLoop baseUrl entityType id env parentEnv ⟨orig, ps, ps⟩ sched := by
        unfold entitySave
        rw [hini]
        rfl
      rw [hes] at hrun
      have hinv0 := stateInv_init entityType env anyPath orig ps
        (fun _ _ _ _ _ => trivial) hini
      obtain ⟨ihok, -, -, -⟩ := runLoop_cases baseUrl entityType id env parentEnv anyPath orig
        (fun _ _ _ _ _ => trivial) sched ⟨orig, ps, ps⟩ hinv0
      obtain ⟨s', cfg', hinv', hpend', htr', -, hbody', -, -, -⟩ := ihok tr pw res hrun
      obtain ⟨-, hfields, -, -, -, -⟩ := hinv'
      obtain ⟨curItems, hcur, hclen, hdisj⟩ := hfields f key origItems hf
      rcases hdisj with ⟨-, hdone⟩ | ⟨p, hpmem, -, -⟩
      · have hilt : i < curItems.length := by
          have := getElem?_lt_length hi
          omega
        obtain ⟨ci, hci⟩ : ∃ x, curItems[i]? = some x := ⟨_, List.getElem?_eq_getElem hilt⟩
        obtain ⟨-, hres2⟩ := hdone i oi ci hi hci
        have hDoi : hasData oi = true := by simp [hasData, hd, hdt]
        obtain ⟨req, resp, fld, tid, hreqf, ⟨q, hq, hqf, hqi, hqr⟩, henv, hfld, hext, hcieq⟩ :=
          hres2 hDoi
        obtain ⟨d', hd', -, -, hch⟩ := hreqf
        have hdd : d' = d := by
          rw [hd] at hd'
          exact (Option.some.inj hd').symm
        have hcond : ¬ oi.target_type = some "fileUpload" := by
          rw [htt]
          intro hcontra
          exact hsent (Option.some.inj hcontra)
        have hreq := hch hcond
        rw [htt, hdd] at hreq
        have hfldeq : fld = ccfg.idField := by
          rw [hreq] at hfld
          simp [idFieldOfReq, hcfg] at hfld
          exact hfld.symm
        refine ⟨resp, tid, ?_, ?_, ⟨q, ?_, hqf, hqi, ?_⟩, curItems, ?_, ?_⟩
        · rw [← hreq]
          exact henv
        · rw [← hfldeq]
          exact hext
        · rw [htr']
          exact hq
        · rw [hqr, hreq]
        · rw [hbody']
          exact hcur
        · rw [hci, hcieq]
      · rw [hpend'] at hpmem
        exact absurd hpmem (List.not_mem_nil p)

theorem entitySave_resolves_inline_children_witness :
    ∃ resp tid,
      ((fun _ => .ok (.obj [("nid", .arr [.obj [("value", .num 42)]])])) :
          DepReq → Except String JSValue)
        (.childSave (some "node") none (.obj [])) = .ok resp ∧
      extractId resp (EntityDef.mk "node/%" (some "node") "nid").idField = some tid ∧
      (∃ q ∈ [Pending.mk 0 "refs" 0 (.childSave (some "node") none (.obj []))],
        q.fieldIdx = 0 ∧ q.itemIdx = 0 ∧
        q.req = .childSave (some "node") none (.obj [])) ∧
      ∃ curItems,
        (ParentWrite.mk "POST" "u/node?_format=json"
          [("refs", [⟨some "node", some (.num 42), some (.obj [])⟩])]).body[0]? =
            some ("refs", curItems) ∧
        curItems[0]? = some (setTid ⟨some "node", none, some (.obj [])⟩ tid) :=
  entitySave_resolves_inline_children "u" "node" none
    [("refs", [⟨some "node", none, some (.obj [])⟩])]
    (fun _ => .ok (.obj [("nid", .arr [.obj [("value", .num 42)]])]))
    (fun _ => ("\x7b\x7d", some (.obj []))) [0]
    [⟨0, "refs", 0, .childSave (some "node") none (.obj [])⟩]
    ⟨"POST", "u/node?_format=json", [("refs", [⟨some "node", some (.num 42), some (.obj [])⟩])]⟩
    (.callbackCalled none (some (.obj []))) 0 0 "refs"
    [⟨some "node", none, some (.obj [])⟩] ⟨some "node", none, some (.obj [])⟩
    (.obj []) "node" ⟨"node/%", some "node", "nid"⟩
    rfl rfl rfl rfl rfl rfl (by decide) rfl

/-- C9: when entitySave fails, the error handed to the caller is an error
reported by one of the issued dependency requests, no parent write is
performed (the failed outcome carries none), and the in-memory payload as the
call leaves it still satisfies the walk relation to the original payload —
target_id rewrites already applied stay in place; nothing is rolled back. -/
theorem entitySave_failure_keeps_rewrites
    (baseUrl entityType : String) (id : Option JSValue) (orig : Payload)
    (env : DepReq → Except String JSValue) (parentEnv : ParentWrite → String × Option JSValue)
    (sched : List Nat) (tr : List Pending) (e : String) (cont : Payload)
    (hrun : entitySave baseUrl entityType id orig env parentEnv sched =
      .failedOut tr e cont) :
    (∃ q ∈ tr, env q.req = .error e) ∧
    (∃ pend', stateInv env anyPath orig ⟨cont, pend', tr⟩) ∧
    contentRel orig cont := by
  cases hini : initFields entityType orig 0 orig with
  | mk ps crashed =>
    cases crashed with
    | true =>
      exfalso
      have hcr : entitySave baseUrl entityType id orig env parentEnv sched =
          .crashedOut ps := by
        unfold entitySave
        rw [hini]
        rfl
      rw [hcr] at hrun
      cases hrun
    | false =>
      have hes : entitySave baseUrl entityType id orig env parentEnv sched =
          runLoop baseUrl entityType id env parentEnv ⟨orig, ps, ps⟩ sched := by
        unfold entitySave
        rw [hini]
        rfl
      rw [hes] at hrun
      have hinv0 := stateInv_init entityType env anyPath orig ps
        (fun _ _ _ _ _ => trivial) hini
      obtain ⟨-, ihfail, -, -⟩ := runLoop_cases baseUrl entityType id env parentEnv anyPath orig
        (fun _ _ _ _ _ => trivial) sched ⟨orig, ps, ps⟩ hinv0
      obtain ⟨s', hinv', htr, hcont, p, hpmem, herr⟩ := ihfail tr e cont hrun
      refine ⟨⟨p, ?_, herr⟩, ⟨s'.pend, ?_⟩, ?_⟩
      · rw [htr]
        exact hinv'.2.2.2.1 p hpmem
      · rw [hcont, htr]
        exact hinv'
      · rw [hcont]
        exact stateInv_contentRel hinv'

theorem entitySave_failure_keeps_rewrites_witness :
    (∃ q ∈ [Pending.mk 0 "refs" 0 (.childSave (some "node") none (.obj [])),
            Pending.mk 0 "refs" 1 (.childSave (some "node") none (.str "x"))],
      ((fun r => match r with
        | .childSave _ _ (.obj _) =>
          .ok (.obj [("nid", .arr [.obj [("value", .num 5)]])])
        | _ => .error "boom") : DepReq → Except String JSValue) q.req = .error "boom") ∧
    (∃ pend', stateInv
      ((fun r => match r with
        | .childSave _ _ (.obj _) =>
          .ok (.obj [("nid", .arr [.obj [("value", .num 5)]])])
        | _ => .error "boom") : DepReq → Except String JSValue) anyPath
      [("refs", [⟨some "node", none, some (.obj [])⟩, ⟨some "node", none, some (.str "x")⟩])]
      ⟨[("refs", [⟨some "node", some (.num 5), some (.obj [])⟩,
          ⟨some "node", none, some (.str "x")⟩])],
       pend',
       [Pending.mk 0 "refs" 0 (.childSave (some "node") none (.obj [])),
        Pending.mk 0 "refs" 1 (.childSave (some "node") none (.str "x"))]⟩) ∧
    contentRel
      [("refs", [⟨some "node", none, some (.obj [])⟩, ⟨some "node", none, some (.str "x")⟩])]
      [("refs", [⟨some "node", some (.num 5), some (.obj [])⟩,
        ⟨some "node", none, some (.str "x")⟩])] :=
  entitySave_failure_keeps_rewrites "u" "node" none
    [("refs", [⟨some "node", none, some (.obj [])⟩, ⟨some "node", none, some (.str "x")⟩])]
    (fun r => match r with
      | .childSave _ _ (.obj _) => .ok (.obj [("nid", .arr [.obj [("value", .num 5)]])])
      | _ => .error "boom")
    (fun _ => ("\x7b\x7d", some (.obj []))) [0, 0]
    [⟨0, "refs", 0, .childSave (some "node") none (.obj [])⟩,
     ⟨0, "refs", 1, .childSave (some "node") none (.str "x")⟩]
    "boom"
    [("refs", [⟨some "node", some (.num 5), some (.obj [])⟩,
      ⟨some "node", none, some (.str "x")⟩])]
    rfl

/-- C2 counterexample: the claim says one field's dependency resolution
completes before the next field's begins. In the source the outer combinator
is async.eachOf, which launches every field's chain synchronously before any
response arrives: on a two-field payload, both fields' dependency requests
have been issued and are simultaneously outstanding while zero responses have
been delivered — field "b"'s resolution began before field "a"'s completed. -/
theorem entitySave_launches_fields_concurrently :
    entitySave "u" "node" none
        [("a", [⟨some "node", none, some (.obj [])⟩]),
         ("b", [⟨some "node", none, some (.obj [])⟩])]
        (fun _ => .error "never") (fun _ => ("", none)) [] =
      .incomplete
        [⟨0, "a", 0, .childSave (some "node") none (.obj [])⟩,
         ⟨1, "b", 0, .childSave (some "node") none (.obj [])⟩]
        [⟨0, "a", 0, .childSave (some "node") none (.obj [])⟩,
         ⟨1, "b", 0, .childSave (some "node") none (.obj [])⟩] := rfl

/-- C2 (amended): within one field, the dependency walk is sequential — in
every run (any schedule, any outcome) the issued requests of each field are
strictly increasing in item index, because eachOfSeries keeps at most one
outstanding request per field and issues the next item's request only after
the previous item's response was applied. Across fields, however, eachOf runs
the chains concurrently, so requests of different fields can be outstanding
simultaneously (see the counterexample); the walk is not field-after-field. -/
theorem entitySave_sequential_within_field
    (baseUrl entityType : String) (id : Option JSValue) (orig : Payload)
    (env : DepReq → Except String JSValue) (parentEnv : ParentWrite → String × Option JSValue)
    (sched : List Nat) (out : SaveOutcome)
    (hrun : entitySave baseUrl entityType id orig env parentEnv sched = out) :
    (saveTrace out).Pairwise
      (fun a b => a.fieldIdx = b.fieldIdx → a.itemIdx < b.itemIdx) := by
  cases hini : initFields entityType orig 0 orig with
  | mk ps crashed =>
    cases crashed with
    | true =>
      have hcr : entitySave baseUrl entityType id orig env parentEnv sched =
          .crashedOut ps := by
        unfold entitySave
        rw [hini]
        rfl
      rw [hcr] at hrun
      rw [← hrun]
      have hpw := (initFields_pairwise entityType orig orig 0).2
      rw [hini] at hpw
      exact hpw.imp (fun h heq => absurd heq (Nat.ne_of_lt h))
    | false =>
      have hes : entitySave baseUrl entityType id orig env parentEnv sched =
          runLoop baseUrl entityType id env parentEnv ⟨orig, ps, ps⟩ sched := by
        unfold entitySave
        rw [hini]
        rfl
      rw [hes] at hrun
      have hinv0 := stateInv_init entityType env anyPath orig ps
        (fun _ _ _ _ _ => trivial) hini
      obtain ⟨ihok, ihfail, ihcrash, ihinc⟩ :=
        runLoop_cases baseUrl entityType id env parentEnv anyPath orig
          (fun _ _ _ _ _ => trivial) sched ⟨orig, ps, ps⟩ hinv0
      cases out with
      | ok tr pw res =>
        obtain ⟨s', cfg', hinv', -, htr, -, -, -, -, -⟩ := ihok tr pw res hrun
        rw [show saveTrace (.ok tr pw res) = tr from rfl, htr]
        exact hinv'.2.2.2.2.2
      | failedOut tr e cont =>
        obtain ⟨s', hinv', htr, -, -⟩ := ihfail tr e cont hrun
        rw [show saveTrace (.failedOut tr e cont) = tr from rfl, htr]
        exact hinv'.2.2.2.2.2
      | crashedOut tr =>
        obtain ⟨s', hinv', htr⟩ := ihcrash tr hrun
        rw [show saveTrace (.crashedOut tr) = tr from rfl, htr]
        exact hinv'.2.2.2.2.2
      | incomplete tr pend' =>
        obtain ⟨s', hinv', htr, -⟩ := ihinc tr pend' hrun
        rw [show saveTrace (.incomplete tr pend') = tr from rfl, htr]
        exact hinv'.2.2.2.2.2

theorem entitySave_sequential_within_field_witness :
    (saveTrace (.ok
      [Pending.mk 0 "refs" 0 (.childSave (some "node") none (.str "c1")),
       Pending.mk 0 "refs" 1 (.childSave (some "node") none (.str "c2"))]
      ⟨"POST", "u/node?_format=json",
        [("refs", [⟨some "node", some (.num 7), some (.str "c1")⟩,
          ⟨some "node", some (.num 7), some (.str "c2")⟩])]⟩
      (.callbackCalled none (some (.obj []))))).Pairwise
      (fun a b => a.fieldIdx = b.fieldIdx → a.itemIdx < b.itemIdx) :=
  entitySave_sequential_within_field "u" "node" none
    [("refs", [⟨some "node", none, some (.str "c1")⟩,
      ⟨some "node", none, some (.str "c2")⟩])]
    (fun _ => .ok (.obj [("nid", .arr [.obj [("value", .num 7)]])]))
    (fun _ => ("\x7b\x7d", some (.obj []))) [0, 0]
    (.ok
      [⟨0, "refs", 0, .childSave (some "node") none (.str "c1")⟩,
       ⟨0, "refs", 1, .childSave (some "node") none (.str "c2")⟩]
      ⟨"POST", "u/node?_format=json",
        [("refs", [⟨some "node", some (.num 7), some (.str "c1")⟩,
          ⟨some "node", some (.num 7), some (.str "c2")⟩])]⟩
      (.callbackCalled none (some (.obj []))))
    rfl

/-- C6: in every successful entitySave run, each item with truthy inline data
and the fileUpload sentinel target type — on a payload whose `type` field's
first item carries no inline data, so its target_id is stable throughout the
walk — has an upload request to the path
entityType/String(type[0].target_id)/fieldName among the issued dependency
requests (hence before the parent write), and the parent write's body carries
that item rewritten to the identifier the upload response reports under the
file type's id field `fid`. -/
theorem entitySave_uploads_pending_files
    (baseUrl entityType : String) (id : Option JSValue) (orig : Payload)
    (env : DepReq → Except String JSValue) (parentEnv : ParentWrite → String × Option JSValue)
    (sched : List Nat) (tr : List Pending) (pw : ParentWrite) (res : DecodeOutcome)
    (f i : Nat) (key : String) (origItems : List RefItem) (oi : RefItem) (d : JSValue)
    (t0 : RefItem) (tItems : List RefItem)
    (hrun : entitySave baseUrl entityType id orig env parentEnv sched = .ok tr pw res)
    (hf : orig[f]? = some (key, origItems))
    (hi : origItems[i]? = some oi)
    (hd : oi.data = some d) (hdt : jsTruthy d = true)
    (htt : oi.target_type = some "fileUpload")
    (htype : lookupField orig "type" = some (t0 :: tItems))
    (ht0 : hasData t0 = false) :
    ∃ resp tid,
      env (.fileUpload (uploadPath entityType t0.target_id key) d) = .ok resp ∧
      extractId resp "fid" = some tid ∧
      (∃ q ∈ tr, q.fieldIdx = f ∧ q.itemIdx = i ∧
        q.req = .fileUpload (uploadPath entityType t0.target_id key) d) ∧
      ∃ curItems, pw.body[f]? = some (key, curItems) ∧
        curItems[i]? = some (setTid oi tid) := by
  cases hini : initFields entityType orig 0 orig with
  | mk ps crashed =>
    cases crashed with
    | true =>
      exfalso
      have hcr : entitySave baseUrl entityType id orig env parentEnv sched =
          .crashedOut ps := by
        unfold entitySave
        rw [hini]
        rfl
      rw [hcr] at hrun
      cases hrun
    | false =>
      have hes : entitySave baseUrl entityType id orig env parentEnv sched =
          runLoop baseUrl entityType id env parentEnv ⟨orig, ps, ps⟩ sched := by
        unfold entitySave
        rw [hini]
        rfl
      rw [hes] at hrun
      have Hpath6 : ∀ c', contentRel orig c' → ∀ k tid, typeTargetId c' = some tid →
          (fun k' path => path = uploadPath entityType t0.target_id k') k
            (uploadPath entityType tid k) := by
        intro c' hrel k tid htid
        have hst := typeTargetId_stable hrel htype ht0
        rw [hst] at htid
        have htide : t0.target_id = tid := Option.some.inj htid
        show uploadPath entityType tid k = uploadPath entityType t0.target_id k
        rw [← htide]
      have hinv0 := stateInv_init entityType env
        (fun k' path => path = uploadPath entityType t0.target_id k') orig ps Hpath6 hini
      obtain ⟨ihok, -, -, -⟩ := runLoop_cases baseUrl entityType id env parentEnv
        (fun k' path => path = uploadPath entityType t0.target_id k') orig Hpath6
        sched ⟨orig, ps, ps⟩ hinv0
      obtain ⟨s', cfg', hinv', hpend', htr', -, hbody', -, -, -⟩ := ihok tr pw res hrun
      obtain ⟨-, hfields, -, -, -, -⟩ := hinv'
      obtain ⟨curItems, hcur, hclen, hdisj⟩ := hfields f key origItems hf
      rcases hdisj with ⟨-, hdone⟩ | ⟨p, hpmem, -, -⟩
      · have hilt : i < curItems.length := by
          have := getElem?_lt_length hi
          omega
        obtain ⟨ci, hci⟩ : ∃ x, curItems[i]? = some x := ⟨_, List.getElem?_eq_getElem hilt⟩
        obtain ⟨-, hres2⟩ := hdone i oi ci hi hci
        have hDoi : hasData oi = true := by simp [hasData, hd, hdt]
        obtain ⟨req, resp, fld, tid, hreqf, ⟨q, hq, hqf, hqi, hqr⟩, henv, hfld, hext, hcieq⟩ :=
          hres2 hDoi
        obtain ⟨d', hd', -, hupl, -⟩ := hreqf
        have hdd : d' = d := by
          rw [hd] at hd'
          exact (Option.some.inj hd').symm
        obtain ⟨path, hreq, hpok⟩ := hupl htt
        rw [hpok, hdd] at hreq
        have hfldeq : fld = "fid" := by
          rw [hreq] at hfld
          simp [idFieldOfReq] at hfld
          exact hfld.symm
        refine ⟨resp, tid, ?_, ?_, ⟨q, ?_, hqf, hqi, ?_⟩, curItems, ?_, ?_⟩
        · rw [← hreq]
          exact henv
        · rw [← hfldeq]
          exact hext
        · rw [htr']
          exact hq
        · rw [hqr, hreq]
        · rw [hbody']
          exact hcur
        · rw [hci, hcieq]
      · rw [hpend'] at hpmem
        exact absurd hpmem (List.not_mem_nil p)

theorem entitySave_uploads_pending_files_witness :
    ∃ resp tid,
      ((fun _ => .ok (.obj [("fid", .arr [.obj [("value", .num 9)]])])) :
          DepReq → Except String JSValue)
        (.fileUpload (uploadPath "media"
          (RefItem.mk none (some (.str "image")) none).target_id "field_img")
          (.str "IMG")) = .ok resp ∧
      extractId resp "fid" = some tid ∧
      (∃ q ∈ [Pending.mk 0 "field_img" 0 (.fileUpload "media/image/field_img" (.str "IMG"))],
        q.fieldIdx = 0 ∧ q.itemIdx = 0 ∧
        q.req = .fileUpload (uploadPath "media"
          (RefItem.mk none (some (.str "image")) none).target_id "field_img") (.str "IMG")) ∧
      ∃ curItems,
        (ParentWrite.mk "POST" "u/entity/media?_format=json"
          [("field_img", [⟨some "fileUpload", some (.num 9), some (.str "IMG")⟩]),
           ("type", [⟨none, some (.str "image"), none⟩])]).body[0]? =
            some ("field_img", curItems) ∧
        curItems[0]? =
          some (setTid ⟨some "fileUpload", none, some (.str "IMG")⟩ tid) :=
  entitySave_uploads_pending_files "u" "media" none
    [("field_img", [⟨some "fileUpload", none, some (.str "IMG")⟩]),
     ("type", [⟨none, some (.str "image"), none⟩])]
    (fun _ => .ok (.obj [("fid", .arr [.obj [("value", .num 9)]])]))
    (fun _ => ("\x7b\x7d", some (.obj []))) [0]
    [⟨0, "field_img", 0, .fileUpload "media/image/field_img" (.str "IMG")⟩]
    ⟨"POST", "u/entity/media?_format=json",
      [("field_img", [⟨some "fileUpload", some (.num 9), some (.str "IMG")⟩]),
       ("type", [⟨none, some (.str "image"), none⟩])]⟩
    (.callbackCalled none (some (.obj []))) 0 0 "field_img"
    [⟨some "fileUpload", none, some (.str "IMG")⟩]
    ⟨some "fileUpload", none, some (.str "IMG")⟩ (.str "IMG")
    ⟨none, some (.str "image"), none⟩ []
    rfl rfl rfl rfl rfl rfl rfl rfl

end DrupalRest
